import Mathlib

/-!
# go-gin-logger: a per-severity logger facade for gin

A shallow embedding of `ginLogger.go`.  The Go program is stateful (it creates a
directory, opens files and writes records), so the embedding passes an explicit
`World` (file system plus the two console streams).  The pieces of the Go standard
library, of gin and of logrus that the program calls are modelled next to the
program, each under the name it has in Go.
-/

namespace GinLogger

/-! ## Values and maps -/

/-- Go values of type `interface{}` that travel through the logger: the values held by a
gin context and the variadic log arguments.  `error` is a value that implements `error`,
with the text of its `Error()`; `func` is a function or a pointer to a function; `other` is
any value of another type (a float, a channel, a struct, ...), given by its `%v` text and
by whether `encoding/json` can encode it (a channel or a NaN cannot be encoded). -/
inductive Value where
  | nil
  | str (s : String)
  | int (n : Int)
  | bool (b : Bool)
  | error (text : String)
  | func (text : String)
  | other (text : String) (json : Bool)
  deriving DecidableEq, Repr

/-- A Go `map[string]α`, kept as an association list with at most one pair per key. -/
abbrev Map (α : Type) := List (String × α)

/-- Go `v, ok := m[k]`. -/
def Map.get? {α : Type} (m : Map α) (k : String) : Option α :=
  match m with
  | [] => none
  | (q, v) :: rest => if q = k then some v else Map.get? rest k

/-- Go `m[k] = v`: the pair for `k` is replaced when there is one, added otherwise. -/
def Map.set {α : Type} (m : Map α) (k : String) (v : α) : Map α :=
  match m with
  | [] => [(k, v)]
  | (q, u) :: rest => if q = k then (k, v) :: rest else (q, u) :: Map.set rest k v

/-- Go `delete(m, k)`. -/
def Map.erase {α : Type} (m : Map α) (k : String) : Map α :=
  match m with
  | [] => []
  | (q, u) :: rest => if q = k then Map.erase rest k else (q, u) :: Map.erase rest k

/-! ## fmt -/

/-- The `%v` rendering of a value. -/
def Value.format : Value → String
  | .nil => "<nil>"
  | .str s => s
  | .int n => toString n
  | .bool b => if b then "true" else "false"
  | .error text => text
  | .func text => text
  | .other text _ => text

/-- Whether the operand is a Go string. -/
def Value.isString : Value → Bool
  | .str _ => true
  | _ => false

/-- Whether the value is of kind `Func`, or a pointer to one. -/
def Value.isFunc : Value → Bool
  | .func _ => true
  | _ => false

/-- Whether `encoding/json` can encode the value. -/
def Value.encodable : Value → Bool
  | .func _ => false
  | .other _ json => json
  | _ => true

/-- Go `fmt.Sprint`: the operands in their default format, with a space added between two
operands when neither is a string. -/
def fmt.Sprint : List Value → String
  | [] => ""
  | [a] => a.format
  | a :: b :: rest =>
    a.format ++ (if !a.isString && !b.isString then " " else "") ++ fmt.Sprint (b :: rest)

/-- Go `fmt.Sprintf("%s/%s.log", dir, severity)`. -/
def logPath (dir severity : String) : String :=
  dir ++ "/" ++ severity ++ ".log"

/-- ASCII lower-casing, the restriction of Go `strings.ToLower` to ASCII input.  The
program takes `strings.ToLower` as a parameter; this instance is used for concrete runs. -/
def asciiToLower (s : String) : String :=
  String.mk (s.data.map Char.toLower)

/-! ## gin -/

/-- The part of `gin.Context` the logger reads: the request-scoped key/value store. -/
structure Context where
  Keys : Map Value
  deriving DecidableEq, Repr

/-- Go `(*gin.Context).Get`: the value under `key` and whether it exists (`none` when it does
not). -/
def Context.Get (c : Context) (key : String) : Option Value :=
  c.Keys.get? key

/-! ## logrus -/

/-- Go `logrus.Level`; a higher number is a more verbose level. -/
inductive log.Level where
  | PanicLevel
  | FatalLevel
  | ErrorLevel
  | WarnLevel
  | InfoLevel
  | DebugLevel
  | TraceLevel
  deriving DecidableEq, Repr

/-- The numeric value of a level (`PanicLevel = 0` up to `TraceLevel = 6`). -/
def log.Level.toNat : log.Level → Nat
  | .PanicLevel => 0
  | .FatalLevel => 1
  | .ErrorLevel => 2
  | .WarnLevel => 3
  | .InfoLevel => 4
  | .DebugLevel => 5
  | .TraceLevel => 6

/-- Go `logrus.Level.String`, the text written under the key `level`. -/
def log.Level.String : log.Level → String
  | .PanicLevel => "panic"
  | .FatalLevel => "fatal"
  | .ErrorLevel => "error"
  | .WarnLevel => "warning"
  | .InfoLevel => "info"
  | .DebugLevel => "debug"
  | .TraceLevel => "trace"

/-- Go `logrus.Fields`. -/
abbrev log.Fields := Map Value

/-- One log record as the formatter hands it to the output: level, message and data fields
(the timestamp is left out; the keys `level` and `msg` of the written object are the two
first components). -/
structure Record where
  level : log.Level
  msg : String
  data : log.Fields
  deriving DecidableEq, Repr

/-- One line of the standard error stream: a log record, or a diagnostic text that logrus
prints there itself. -/
inductive Line where
  | record (r : Record)
  | text (s : String)
  deriving DecidableEq, Repr

/-- An `io.Writer` the program can install as a logger output. -/
inductive Writer where
  | stderr
  | stdout
  | file (path : String)
  deriving DecidableEq, Repr

/-- Go `logrus.Formatter`, as far as the program chooses between them. -/
inductive log.Formatter where
  | TextFormatter
  | JSONFormatter
  deriving DecidableEq, Repr

/-- Go `logrus.Logger`.  `Out` lists the writers a record is copied to, in order: one writer,
or the operands of `io.MultiWriter`. -/
structure log.Logger where
  Out : List Writer
  Formatter : log.Formatter
  Level : log.Level
  deriving DecidableEq, Repr

/-- Go `logrus.New()`. -/
def log.New : log.Logger :=
  { Out := [Writer.stderr], Formatter := log.Formatter.TextFormatter, Level := log.Level.InfoLevel }

/-- Go `(*Logger).SetFormatter`. -/
def log.Logger.SetFormatter (lg : log.Logger) (f : log.Formatter) : log.Logger :=
  { lg with Formatter := f }

/-- Go `(*Logger).SetLevel`. -/
def log.Logger.SetLevel (lg : log.Logger) (level : log.Level) : log.Logger :=
  { lg with Level := level }

/-- Go `(*Logger).SetOutput`. -/
def log.Logger.SetOutput (lg : log.Logger) (out : List Writer) : log.Logger :=
  { lg with Out := out }

/-- Go `(*Logger).IsLevelEnabled`: `logger.level() >= level`. -/
def log.Logger.IsLevelEnabled (lg : log.Logger) (level : log.Level) : Bool :=
  decide (level.toNat ≤ lg.Level.toNat)

/-! ## os -/

/-- The errors of the `os` calls, as far as `os.IsNotExist` tells them apart. -/
inductive os.Error where
  | ErrNotExist
  | other
  deriving DecidableEq, Repr

/-- Go `os.IsNotExist`, applied to the error of a call (`none` for a nil error). -/
def os.IsNotExist : Option os.Error → Bool
  | some os.Error.ErrNotExist => true
  | _ => false

/-- The file system.  `dirs` are the directories, `files` the regular files with the records
they hold; `unreadable` are the paths `os.Stat` cannot inspect and `unwritable` the paths
that can be neither created nor opened for writing. -/
structure FS where
  dirs : List String
  files : Map (List Record)
  unreadable : List String
  unwritable : List String
  deriving DecidableEq, Repr

/-- Whether a path names a directory or a regular file. -/
def FS.exists (fs : FS) (p : String) : Bool :=
  decide (p ∈ fs.dirs) || (fs.files.get? p).isSome

/-- The directory a path lies in: what stands before the last `/` of the path without its
trailing slashes, `/` for an entry of the root and `.` for a path without a directory part.
Paths are taken by their spelling. -/
def parentDir (p : String) : String :=
  let r := p.data.reverse.dropWhile (fun c => c == '/')
  match r.dropWhile (fun c => c != '/') with
  | [] => if r = [] ∧ p ≠ "" then "/" else "."
  | _ :: pre => if pre = [] then "/" else String.mk pre.reverse

/-- The directories above a path, nearest first (as many steps as the path has bytes). -/
def ancestors : Nat → String → List String
  | 0, _ => []
  | n + 1, p => parentDir p :: ancestors n (parentDir p)

/-- Whether some directory above the path is in fact a regular file (`ENOTDIR`). -/
def FS.underFile (fs : FS) (p : String) : Bool :=
  (ancestors p.length p).any (fun a => (fs.files.get? a).isSome)

/-- Go `os.Stat`, reduced to its error (`none` for a nil error): `ErrNotExist` for the empty
path and for a path that is not there, another error for a path that cannot be inspected or
lies below a regular file. -/
def os.Stat (p : String) (fs : FS) : Option os.Error :=
  if p = "" then some os.Error.ErrNotExist
  else if p ∈ fs.unreadable then some os.Error.other
  else if fs.exists p then none
  else if fs.underFile p then some os.Error.other
  else some os.Error.ErrNotExist

/-- Go `os.Mkdir`: fails on the empty path, on a path that cannot be written or is already
there, and on a path whose parent directory is not there. -/
def os.Mkdir (p : String) (fs : FS) : Except os.Error FS :=
  if p = "" then Except.error os.Error.ErrNotExist
  else if p ∈ fs.unwritable then Except.error os.Error.other
  else if fs.exists p then Except.error os.Error.other
  else if parentDir p ∈ fs.dirs then Except.ok { fs with dirs := p :: fs.dirs }
  else if fs.underFile p then Except.error os.Error.other
  else Except.error os.Error.ErrNotExist

/-- Go `os.OpenFile(p, os.O_CREATE|os.O_WRONLY|os.O_APPEND, 0666)`: fails on the empty path
and when the path cannot be written, is a directory, or lies in a directory that is not
there; otherwise the file is created empty unless it exists, and stays as it is when it
does. -/
def os.OpenFile (p : String) (fs : FS) : Except os.Error FS :=
  if p = "" then Except.error os.Error.ErrNotExist
  else if p ∈ fs.unwritable then Except.error os.Error.other
  else if p ∈ fs.dirs then Except.error os.Error.other
  else if parentDir p ∈ fs.dirs then
    match fs.files.get? p with
    | some _ => Except.ok fs
    | none => Except.ok { fs with files := fs.files.set p [] }
  else if fs.underFile p then Except.error os.Error.other
  else Except.error os.Error.ErrNotExist

/-- A write on a file opened with `O_APPEND`: the record goes to the end of the file. -/
def FS.append (fs : FS) (p : String) (r : Record) : FS :=
  match fs.files.get? p with
  | some content => { fs with files := fs.files.set p (content ++ [r]) }
  | none => fs

/-- What the process can change: the file system and the two console streams. -/
structure World where
  fs : FS
  stdout : List Record
  stderr : List Line
  deriving DecidableEq, Repr

/-- One `Write` call on a writer. -/
def Writer.Write (wr : Writer) (r : Record) (w : World) : World :=
  match wr with
  | Writer.stderr => { w with stderr := w.stderr ++ [Line.record r] }
  | Writer.stdout => { w with stdout := w.stdout ++ [r] }
  | Writer.file p => { w with fs := w.fs.append p r }

/-- The write of a record to a logger output: each writer in turn, as `io.MultiWriter`
does. -/
def writeAll (out : List Writer) (r : Record) (w : World) : World :=
  out.foldl (fun acc wr => wr.Write r acc) w

/-- Go `logrus.Entry`: a logger together with the data fields attached so far and the text
`err` about the fields that could not be attached. -/
structure log.Entry where
  Logger : log.Logger
  Data : log.Fields
  err : String
  deriving DecidableEq, Repr

/-- Go `strconv.Quote`, for a key without characters that need an escape. -/
def strconv.Quote (s : String) : String :=
  "\"" ++ s ++ "\""

/-- Go `(*Logger).WithFields`: on a fresh entry, every pair is copied except those whose
value is a function; for these the entry records `can not add field`. -/
def log.Logger.WithFields (lg : log.Logger) (fields : log.Fields) : log.Entry :=
  let entryErr := ""
  { Logger := lg,
    Data := fields.filter (fun p => !p.2.isFunc),
    err := fields.foldl
      (fun fieldErr p =>
        if p.2.isFunc then
          if fieldErr != "" then entryErr ++ ", " ++ ("can not add field " ++ strconv.Quote p.1)
          else "can not add field " ++ strconv.Quote p.1
        else fieldErr)
      entryErr }

/-- Go `prefixFieldClashes` for one of the keys the formatter writes itself: a data field
under that key moves to `fields.` followed by the key. -/
def log.prefixFieldClash (data : log.Fields) (key : String) : log.Fields :=
  match data.get? key with
  | some v => (data.set ("fields." ++ key) v).erase key
  | none => data

/-- Go `prefixFieldClashes` (no caller reporting): the keys `time`, `msg`, `level` and
`logrus_error`, in this order. -/
def log.prefixFieldClashes (data : log.Fields) : log.Fields :=
  log.prefixFieldClash
    (log.prefixFieldClash (log.prefixFieldClash (log.prefixFieldClash data "time") "msg") "level")
    "logrus_error"

/-- The step of the formatters that adds the entry error under `logrus_error`. -/
def log.addEntryErr (data : log.Fields) (err : String) : log.Fields :=
  if err != "" then data.set "logrus_error" (Value.str err) else data

/-- The first loop of `(*JSONFormatter).Format`: a value that implements `error` is replaced
by its text, which `encoding/json` would otherwise leave out. -/
def log.errorText (data : log.Fields) : log.Fields :=
  data.map (fun p =>
    match p.2 with
    | Value.error text => (p.1, Value.str text)
    | _ => p)

/-- Go `(*JSONFormatter).Format`: `error` values become their text, clashing keys are
prefixed, the entry error is added, and the object is encoded; the encoding fails when a value
cannot be encoded. -/
def log.JSONFormatter.Format (e : log.Entry) (level : log.Level) (msg : String) :
    Except String Record :=
  let data := log.addEntryErr (log.prefixFieldClashes (log.errorText e.Data)) e.err
  if data.all (fun p => p.2.encodable) then
    Except.ok { level := level, msg := msg, data := data }
  else Except.error "failed to marshal fields to JSON"

/-- Go `(*TextFormatter).Format`: clashing keys are prefixed, the entry error is added, and
every value is printed; it does not fail. -/
def log.TextFormatter.Format (e : log.Entry) (level : log.Level) (msg : String) :
    Except String Record :=
  Except.ok
    { level := level, msg := msg,
      data := log.addEntryErr (log.prefixFieldClashes e.Data) e.err }

/-- Go `Formatter.Format`, for the formatter installed on the logger. -/
def log.Formatter.Format (f : log.Formatter) (e : log.Entry) (level : log.Level)
    (msg : String) : Except String Record :=
  match f with
  | log.Formatter.TextFormatter => log.TextFormatter.Format e level msg
  | log.Formatter.JSONFormatter => log.JSONFormatter.Format e level msg

/-- Go `(*Entry).Log`: when the level is enabled on the logger, the entry with message
`fmt.Sprint(args...)` is formatted and the record is written to the logger output; when the
formatter fails, logrus reports it on the standard error stream and writes nothing to the
output; when the level is not enabled nothing happens. -/
def log.Entry.Log (e : log.Entry) (level : log.Level) (args : List Value) (w : World) : World :=
  if e.Logger.IsLevelEnabled level then
    match e.Logger.Formatter.Format e level (fmt.Sprint args) with
    | Except.ok r => writeAll e.Logger.Out r w
    | Except.error msg =>
      { w with stderr := w.stderr ++ [Line.text ("Failed to obtain reader, " ++ msg)] }
  else w

/-- Go `(*Entry).Info`. -/
def log.Entry.Info (e : log.Entry) (args : List Value) (w : World) : World :=
  e.Log log.Level.InfoLevel args w

/-- Go `(*Entry).Warn`. -/
def log.Entry.Warn (e : log.Entry) (args : List Value) (w : World) : World :=
  e.Log log.Level.WarnLevel args w

/-- Go `(*Logger).Log`: a fresh entry without fields, when the level is enabled. -/
def log.Logger.Log (lg : log.Logger) (level : log.Level) (args : List Value) (w : World) : World :=
  if lg.IsLevelEnabled level then
    log.Entry.Log { Logger := lg, Data := [], err := "" } level args w
  else w

/-- Go `(*Logger).Info`. -/
def log.Logger.Info (lg : log.Logger) (args : List Value) (w : World) : World :=
  lg.Log log.Level.InfoLevel args w

/-- Go `(*Logger).Warn`. -/
def log.Logger.Warn (lg : log.Logger) (args : List Value) (w : World) : World :=
  lg.Log log.Level.WarnLevel args w

/-! ## The program -/

/-- Go `type ContextField string`. -/
abbrev ContextField := String

/-- Go `type LoggerConfig struct`. -/
structure LoggerConfig where
  Env : String
  LogDir : String
  deriving DecidableEq, Repr

/-- Go `type logrus struct`. -/
structure logrus where
  logger : Map log.Logger
  contextFields : List ContextField
  deriving DecidableEq, Repr

/-- Go `var logLevels`, in the order of the source text. -/
def logLevels : List (String × log.Level) :=
  [("Info", log.Level.InfoLevel), ("Debug", log.Level.DebugLevel),
   ("Warn", log.Level.WarnLevel), ("Error", log.Level.ErrorLevel)]

/-- Go `getLogFields`; `ToLower` stands for `strings.ToLower`. -/
def getLogFields (ToLower : String → String) (ctx : Context)
    (contextFields : List ContextField) : log.Fields :=
  contextFields.foldl
    (fun fields contextField =>
      match ctx.Get contextField with
      | some val => fields.set (ToLower contextField) val
      | none => fields)
    []

/-- The first block of the closure returned by `NewGinLogger`: the directory is created when
`os.Stat` reports that it does not exist, and a failed `os.Mkdir` is fatal. -/
def ensureLogDir (config : LoggerConfig) (fs : FS) : Except String FS :=
  if os.IsNotExist (os.Stat config.LogDir fs) then
    match os.Mkdir config.LogDir fs with
    | Except.error _ => Except.error "Error occured while creating logger dir"
    | Except.ok fs1 => Except.ok fs1
  else Except.ok fs

/-- The body of the loop `for severity, logLevel := range logLevels` for one pair. -/
def openSink (config : LoggerConfig) (severity : String) (logLevel : log.Level)
    (logInstance : logrus) (fs : FS) : Except String (logrus × FS) :=
  let lg := (log.New.SetFormatter log.Formatter.JSONFormatter).SetLevel logLevel
  match os.OpenFile (logPath config.LogDir severity) fs with
  | Except.ok fs1 =>
    let file := Writer.file (logPath config.LogDir severity)
    let lg1 :=
      if config.Env = "PROD" ∨ config.Env = "STAGE" then lg.SetOutput [file]
      else lg.SetOutput [file, Writer.stdout]
    Except.ok ({ logInstance with logger := logInstance.logger.set severity lg1 }, fs1)
  | Except.error _ => Except.error "Error occured while creating logger file"

/-- The loop over `logLevels`, visiting the pairs in the order `order`. -/
def openSinks (config : LoggerConfig) (order : List (String × log.Level))
    (logInstance : logrus) (fs : FS) : Except String (logrus × FS) :=
  match order with
  | [] => Except.ok (logInstance, fs)
  | (severity, logLevel) :: rest =>
    match openSink config severity logLevel logInstance fs with
    | Except.ok (logInstance1, fs1) => openSinks config rest logInstance1 fs1
    | Except.error e => Except.error e

/-- Go `NewGinLogger(config, contextFields...)()`.  `order` is the order in which the Go
runtime visits the map `logLevels` (any arrangement of its pairs); `Except.error` is the
exit of the process through `log.Fatal`, with its message. -/
def NewGinLogger (config : LoggerConfig) (contextFields : List ContextField)
    (order : List (String × log.Level)) (w : World) : Except String (logrus × World) :=
  let logInstance : logrus := { logger := [], contextFields := contextFields }
  match ensureLogDir config w.fs with
  | Except.error e => Except.error e
  | Except.ok fs1 =>
    match openSinks config order logInstance fs1 with
    | Except.error e => Except.error e
    | Except.ok (logInstance1, fs2) => Except.ok (logInstance1, { w with fs := fs2 })

/-- Go `(*logrus).Debug`; `none` is the nil-pointer panic of a missing sink. -/
def logrus.Debug (ToLower : String → String) (l : logrus) (ctx : Option Context)
    (args : List Value) (w : World) : Option World :=
  match l.logger.get? "Debug" with
  | none => none
  | some lg =>
    match ctx with
    | some c => some ((lg.WithFields (getLogFields ToLower c l.contextFields)).Info args w)
    | none => some (lg.Info args w)

/-- Go `(*logrus).Info`; `none` is the nil-pointer panic of a missing sink. -/
def logrus.Info (ToLower : String → String) (l : logrus) (ctx : Option Context)
    (args : List Value) (w : World) : Option World :=
  match l.logger.get? "Info" with
  | none => none
  | some lg =>
    match ctx with
    | some c => some ((lg.WithFields (getLogFields ToLower c l.contextFields)).Info args w)
    | none => some (lg.Info args w)

/-- Go `(*logrus).Warning`; `none` is the nil-pointer panic of a missing sink. -/
def logrus.Warning (ToLower : String → String) (l : logrus) (ctx : Option Context)
    (args : List Value) (w : World) : Option World :=
  match l.logger.get? "Warn" with
  | none => none
  | some lg =>
    match ctx with
    | some c => some ((lg.WithFields (getLogFields ToLower c l.contextFields)).Warn args w)
    | none => some (lg.Warn args w)

/-- Go `(*logrus).Error`; `none` is the nil-pointer panic of a missing sink. -/
def logrus.Error (ToLower : String → String) (l : logrus) (ctx : Option Context)
    (args : List Value) (w : World) : Option World :=
  match l.logger.get? "Error" with
  | none => none
  | some lg =>
    match ctx with
    | some c => some ((lg.WithFields (getLogFields ToLower c l.contextFields)).Warn args w)
    | none => some (lg.Warn args w)

/-- The content of a file, `none` when there is no such file. -/
def World.file (w : World) (p : String) : Option (List Record) :=
  w.fs.files.get? p

/-- A file system with the directory `/tmp` and nothing else. -/
def fsTmp : FS :=
  { dirs := ["/tmp"], files := [], unreadable := [], unwritable := [] }

/-- A world in which nothing has been written yet. -/
def world0 : World :=
  { fs := fsTmp, stdout := [], stderr := [] }

/-- The sample configuration of a development run. -/
def devConfig : LoggerConfig :=
  { Env := "DEV", LogDir := "/tmp/logs" }

/-- The sample configuration of a production run. -/
def prodConfig : LoggerConfig :=
  { Env := "PROD", LogDir := "/tmp/logs" }

/-- A sink on a file below `/tmp/logs`, with or without the console. -/
def sampleSink (console : Bool) (severity : String) (level : log.Level) : log.Logger :=
  { Out := if console then [Writer.file (logPath "/tmp/logs" severity), Writer.stdout]
      else [Writer.file (logPath "/tmp/logs" severity)],
    Formatter := log.Formatter.JSONFormatter,
    Level := level }

/-- The facade a run on `/tmp/logs` builds when the map is visited in source order. -/
def sampleFacade (console : Bool) (names : List ContextField) : logrus :=
  { logger :=
      [("Info", sampleSink console "Info" log.Level.InfoLevel),
       ("Debug", sampleSink console "Debug" log.Level.DebugLevel),
       ("Warn", sampleSink console "Warn" log.Level.WarnLevel),
       ("Error", sampleSink console "Error" log.Level.ErrorLevel)],
    contextFields := names }

/-- The world such a run leaves behind when started in `world0`. -/
def sampleWorld : World :=
  { fs :=
      { dirs := ["/tmp/logs", "/tmp"],
        files :=
          [("/tmp/logs/Info.log", []), ("/tmp/logs/Debug.log", []),
           ("/tmp/logs/Warn.log", []), ("/tmp/logs/Error.log", [])],
        unreadable := [],
        unwritable := [] },
    stdout := [],
    stderr := [] }

/-- The world `world0` with one more path that cannot be written. -/
def worldLocked (p : String) : World :=
  { world0 with fs := { fsTmp with unwritable := [p] } }

/-- A facade, not one `NewGinLogger` builds, whose `Error` sink lets every level through and
writes to the console only. -/
def verboseFacade : logrus :=
  { logger :=
      [("Error",
        { Out := [Writer.stdout], Formatter := log.Formatter.JSONFormatter,
          Level := log.Level.TraceLevel })],
    contextFields := [] }

/-! ## Maps -/

theorem Map.get?_set {α : Type} (m : Map α) (k q : String) (v : α) :
    (m.set k v).get? q = if k = q then some v else m.get? q := by
  induction m with
  | nil => simp [Map.set, Map.get?]
  | cons hd rest ih =>
    obtain ⟨a, u⟩ := hd
    by_cases hak : a = k
    · subst hak
      by_cases haq : a = q <;> simp [Map.set, Map.get?, haq]
    · by_cases hkq : k = q
      · subst hkq
        simp [Map.set, Map.get?, hak, ih]
      · by_cases haq : a = q
        · subst haq
          simp [Map.set, Map.get?, hak, hkq]
        · simp [Map.set, Map.get?, hak, haq, hkq, ih]

theorem Map.mem_set {α : Type} (m : Map α) (k : String) (v : α) (p : String × α)
    (h : p ∈ m.set k v) : p = (k, v) ∨ p ∈ m := by
  induction m with
  | nil =>
    simp only [Map.set, List.mem_singleton] at h
    exact Or.inl h
  | cons hd rest ih =>
    obtain ⟨a, u⟩ := hd
    by_cases hak : a = k
    · simp only [Map.set, hak, if_true, List.mem_cons] at h
      rcases h with h | h
      · exact Or.inl h
      · exact Or.inr (List.mem_cons_of_mem _ h)
    · simp only [Map.set, hak, if_false, List.mem_cons] at h
      rcases h with h | h
      · exact Or.inr (h ▸ List.mem_cons_self _ _)
      · rcases ih h with h1 | h1
        · exact Or.inl h1
        · exact Or.inr (List.mem_cons_of_mem _ h1)

theorem Map.mem_erase {α : Type} (m : Map α) (k : String) (p : String × α)
    (h : p ∈ m.erase k) : p ∈ m := by
  induction m with
  | nil => simp [Map.erase] at h
  | cons hd rest ih =>
    obtain ⟨a, u⟩ := hd
    by_cases hak : a = k
    · simp only [Map.erase, hak, if_true] at h
      exact List.mem_cons_of_mem _ (ih h)
    · simp only [Map.erase, hak, if_false, List.mem_cons] at h
      rcases h with h | h
      · exact h ▸ List.mem_cons_self _ _
      · exact List.mem_cons_of_mem _ (ih h)

theorem Map.mem_of_get? {α : Type} (m : Map α) (k : String) (v : α)
    (h : m.get? k = some v) : (k, v) ∈ m := by
  induction m with
  | nil => simp [Map.get?] at h
  | cons hd rest ih =>
    obtain ⟨a, u⟩ := hd
    by_cases hak : a = k
    · simp only [Map.get?, hak, if_true, Option.some.injEq] at h
      subst hak h
      exact List.mem_cons_self _ _
    · simp only [Map.get?, hak, if_false] at h
      exact List.mem_cons_of_mem _ (ih h)

/-! ## getLogFields -/

/-- One round of the loop of `getLogFields`. -/
theorem getLogFields_step_get? (ToLower : String → String) (ctx : Context)
    (fields : log.Fields) (n k : String) :
    Map.get? (match ctx.Get n with
      | some val => fields.set (ToLower n) val
      | none => fields) k
      = if ToLower n = k ∧ (ctx.Get n).isSome then ctx.Get n else fields.get? k := by
  cases h : ctx.Get n with
  | none => simp
  | some val =>
    simp [Map.get?_set]

theorem getLogFields_foldl_isSome (ToLower : String → String) (ctx : Context)
    (names : List ContextField) (acc : log.Fields) (k : String) :
    ((names.foldl
        (fun fields contextField =>
          match ctx.Get contextField with
          | some val => Map.set fields (ToLower contextField) val
          | none => fields) acc).get? k).isSome = true
      ↔ (acc.get? k).isSome = true ∨ ∃ n ∈ names, (ctx.Get n).isSome = true ∧ ToLower n = k := by
  induction names generalizing acc with
  | nil => simp
  | cons x rest ih =>
    rw [List.foldl_cons, ih, getLogFields_step_get?]
    by_cases hx : ToLower x = k ∧ (ctx.Get x).isSome = true
    · simp [hx]
    · rw [if_neg hx]
      constructor
      · rintro (h | ⟨n, hn, h1, h2⟩)
        · exact Or.inl h
        · exact Or.inr ⟨n, List.mem_cons_of_mem _ hn, h1, h2⟩
      · rintro (h | ⟨n, hn, h1, h2⟩)
        · exact Or.inl h
        · rcases List.mem_cons.mp hn with rfl | hn
          · exact absurd ⟨h2, h1⟩ hx
          · exact Or.inr ⟨n, hn, h1, h2⟩

theorem getLogFields_foldl_get? (ToLower : String → String) (ctx : Context)
    (names : List ContextField) (acc : log.Fields) (k : String) (v : Value) :
    (names.foldl
        (fun fields contextField =>
          match ctx.Get contextField with
          | some val => Map.set fields (ToLower contextField) val
          | none => fields) acc).get? k = some v
      ↔ (∃ pre n post, names = pre ++ n :: post ∧ ToLower n = k ∧ ctx.Get n = some v ∧
            ∀ m ∈ post, ToLower m = k → ctx.Get m = none)
        ∨ (acc.get? k = some v ∧ ∀ m ∈ names, ToLower m = k → ctx.Get m = none) := by
  induction names generalizing acc with
  | nil => simp
  | cons x rest ih =>
    rw [List.foldl_cons, ih, getLogFields_step_get?]
    constructor
    · rintro (⟨pre, n, post, h1, h2, h3, h4⟩ | ⟨hacc, hrest⟩)
      · exact Or.inl ⟨x :: pre, n, post, by simp [h1], h2, h3, h4⟩
      · by_cases hx : ToLower x = k ∧ (ctx.Get x).isSome = true
        · rw [if_pos hx] at hacc
          exact Or.inl ⟨[], x, rest, rfl, hx.1, hacc, hrest⟩
        · rw [if_neg hx] at hacc
          refine Or.inr ⟨hacc, ?_⟩
          intro m hm hmk
          rcases List.mem_cons.mp hm with rfl | hm
          · cases hg : ctx.Get m with
            | none => rfl
            | some val => exact absurd ⟨hmk, by simp [hg]⟩ hx
          · exact hrest m hm hmk
    · rintro (⟨pre, n, post, h1, h2, h3, h4⟩ | ⟨hacc, hall⟩)
      · cases pre with
        | nil =>
          simp only [List.nil_append, List.cons.injEq] at h1
          obtain ⟨rfl, rfl⟩ := h1
          refine Or.inr ⟨?_, h4⟩
          rw [if_pos ⟨h2, by simp [h3]⟩, h3]
        | cons p pre1 =>
          simp only [List.cons_append, List.cons.injEq] at h1
          obtain ⟨rfl, rfl⟩ := h1
          exact Or.inl ⟨pre1, n, post, rfl, h2, h3, h4⟩
      · refine Or.inr ⟨?_, fun m hm => hall m (List.mem_cons_of_mem _ hm)⟩
        have hx : ¬ (ToLower x = k ∧ (ctx.Get x).isSome = true) := by
          rintro ⟨h1, h2⟩
          rw [hall x (List.mem_cons_self _ _) h1] at h2
          simp at h2
        rw [if_neg hx]; exact hacc

/-- C1. The mapping returned by `getLogFields` has the key `k` exactly when some configured
name is set in the context, under the name as configured, and lower-cases to `k`: a context
that holds only the lower-cased key gives no field, and a configured name that is not set
gives none either. -/
theorem getLogFields_keys :
    (∀ (ToLower : String → String) (ctx : Context) (names : List ContextField) (k : String),
      ((getLogFields ToLower ctx names).get? k).isSome = true
        ↔ ∃ n ∈ names, (ctx.Get n).isSome = true ∧ ToLower n = k)
    ∧ getLogFields asciiToLower { Keys := [("x-request-id", Value.str "abc")] }
        ["X-Request-Id"] = []
    ∧ getLogFields asciiToLower { Keys := [("X-Request-Id", Value.str "abc")] }
        ["X-Request-Id", "X-User-Id"] = [("x-request-id", Value.str "abc")] := by
  refine ⟨?_, by decide, by decide⟩
  intro ToLower ctx names k
  unfold getLogFields
  rw [getLogFields_foldl_isSome]
  simp [Map.get?]

/-- C2. The value `getLogFields` stores under `k` is the context value of the last
configured name that is set and lower-cases to `k`; the configured name `X-Request-Id` set
to `abc` gives the single field `x-request-id` with value `abc`, and of two set names that
lower-case to the same key the later one wins. -/
theorem getLogFields_value :
    (∀ (ToLower : String → String) (ctx : Context) (names : List ContextField)
        (k : String) (v : Value),
        (getLogFields ToLower ctx names).get? k = some v
          ↔ ∃ pre n post, names = pre ++ n :: post ∧ ToLower n = k ∧ ctx.Get n = some v ∧
              ∀ m ∈ post, ToLower m = k → ctx.Get m = none)
    ∧ getLogFields asciiToLower { Keys := [("X-Request-Id", Value.str "abc")] } ["X-Request-Id"]
        = [("x-request-id", Value.str "abc")]
    ∧ getLogFields asciiToLower { Keys := [("A", Value.int 1), ("a", Value.int 2)] } ["A", "a"]
        = [("a", Value.int 2)]
    ∧ getLogFields asciiToLower { Keys := [("A", Value.int 1), ("a", Value.int 2)] } ["a", "A"]
        = [("a", Value.int 1)] := by
  refine ⟨?_, by decide, by decide, by decide⟩
  intro ToLower ctx names k v
  unfold getLogFields
  rw [getLogFields_foldl_get?]
  simp [Map.get?]

/-! ## Paths -/

theorem dropWhile_append_of_all {α : Type} (p : α → Bool) (l1 l2 : List α)
    (h : ∀ c ∈ l1, p c = true) : (l1 ++ l2).dropWhile p = l2.dropWhile p := by
  induction l1 with
  | nil => rfl
  | cons a rest ih =>
    have ha : p a = true := h a (List.mem_cons_self _ _)
    simp only [List.cons_append, List.dropWhile_cons, ha, if_true]
    exact ih (fun c hc => h c (List.mem_cons_of_mem _ hc))

theorem logPath_data (dir severity : String) :
    (logPath dir severity).data = dir.data ++ '/' :: (severity.data ++ ['.', 'l', 'o', 'g']) := by
  simp [logPath, String.data_append]

theorem parentDir_logPath (dir severity : String) (hdir : dir ≠ "")
    (h : '/' ∉ severity.data) : parentDir (logPath dir severity) = dir := by
  have hrev : (logPath dir severity).data.reverse
      = 'g' :: ((['o', 'l', '.'] ++ severity.data.reverse) ++ ('/' :: dir.data.reverse)) := by
    rw [logPath_data]
    simp
  have hall : ∀ c ∈ 'g' :: (['o', 'l', '.'] ++ severity.data.reverse),
      (fun c => c != '/') c = true := by
    intro c hc
    have hne : c ≠ '/' := by
      rintro rfl
      simp at hc
      exact h hc
    simpa using hne
  have hdrop : ('g' :: ((['o', 'l', '.'] ++ severity.data.reverse)
        ++ ('/' :: dir.data.reverse))).dropWhile (fun c => c != '/')
      = '/' :: dir.data.reverse := by
    have := dropWhile_append_of_all (fun c => c != '/')
      ('g' :: (['o', 'l', '.'] ++ severity.data.reverse)) ('/' :: dir.data.reverse) hall
    simpa using this
  have hd : dir.data.reverse ≠ [] := by
    intro hh
    apply hdir
    apply String.ext
    simpa using hh
  unfold parentDir
  simp only [hrev]
  have h1 : ('g' :: ((['o', 'l', '.'] ++ severity.data.reverse)
        ++ ('/' :: dir.data.reverse))).dropWhile (fun c => c == '/')
      = 'g' :: ((['o', 'l', '.'] ++ severity.data.reverse) ++ ('/' :: dir.data.reverse)) := by
    rw [List.dropWhile_cons]
    simp
  rw [h1, hdrop]
  simp only [hd, if_false, List.reverse_reverse]

theorem logPath_injective (dir s1 s2 : String) (h : logPath dir s1 = logPath dir s2) :
    s1 = s2 := by
  have hd := congrArg String.data h
  rw [logPath_data, logPath_data] at hd
  have h1 := List.append_cancel_left hd
  simp only [List.cons.injEq, true_and] at h1
  have h2 := List.append_cancel_right h1
  exact String.ext h2

/-! ## os -/

theorem os.OpenFile_ok_iff (p : String) (fs : FS) :
    (∃ fs1, os.OpenFile p fs = Except.ok fs1)
      ↔ p ≠ "" ∧ p ∉ fs.unwritable ∧ p ∉ fs.dirs ∧ parentDir p ∈ fs.dirs := by
  unfold os.OpenFile
  by_cases h0 : p = ""
  · simp [h0]
  · by_cases h1 : p ∈ fs.unwritable
    · simp [h0, h1]
    · by_cases h2 : p ∈ fs.dirs
      · simp [h0, h1, h2]
      · by_cases h3 : parentDir p ∈ fs.dirs
        · simp only [h0, h1, h2, h3, if_false, if_true, not_false_eq_true, and_self, iff_true,
            ne_eq]
          cases fs.files.get? p with
          | none => exact ⟨_, rfl⟩
          | some c => exact ⟨_, rfl⟩
        · by_cases h4 : fs.underFile p = true <;> simp [h0, h1, h2, h3, h4]

theorem os.OpenFile_error_of_not_ok (p : String) (fs : FS)
    (h : ¬ ∃ fs1, os.OpenFile p fs = Except.ok fs1) :
    ∃ e, os.OpenFile p fs = Except.error e := by
  cases hop : os.OpenFile p fs with
  | error e => exact ⟨e, rfl⟩
  | ok fs1 => exact absurd ⟨fs1, hop⟩ h

theorem os.OpenFile_frame (p : String) (fs fs1 : FS) (h : os.OpenFile p fs = Except.ok fs1) :
    fs1.dirs = fs.dirs ∧ fs1.unwritable = fs.unwritable ∧ fs1.unreadable = fs.unreadable ∧
      ∀ q, fs1.files.get? q
        = if p = q ∧ fs.files.get? q = none then some [] else fs.files.get? q := by
  obtain ⟨h0, h1, h2, h3⟩ := (os.OpenFile_ok_iff p fs).mp ⟨fs1, h⟩
  unfold os.OpenFile at h
  simp only [h0, h1, h2, h3, if_false, if_true] at h
  cases hg : fs.files.get? p with
  | none =>
    rw [hg] at h
    simp only [Except.ok.injEq] at h
    subst h
    refine ⟨rfl, rfl, rfl, ?_⟩
    intro q
    simp only [Map.get?_set]
    by_cases hpq : p = q
    · subst hpq; simp [hg]
    · simp [hpq]
  | some c =>
    rw [hg] at h
    simp only [Except.ok.injEq] at h
    subst h
    refine ⟨rfl, rfl, rfl, ?_⟩
    intro q
    by_cases hpq : p = q
    · subst hpq; simp [hg]
    · simp [hpq]

theorem FS.append_get? (fs : FS) (p q : String) (r : Record) :
    (fs.append p r).files.get? q
      = if p = q then (fs.files.get? q).map (fun c => c ++ [r]) else fs.files.get? q := by
  unfold FS.append
  cases hg : fs.files.get? p with
  | none =>
    by_cases hpq : p = q
    · subst hpq; simp [hg]
    · simp [hpq]
  | some c =>
    simp only [Map.get?_set]
    by_cases hpq : p = q
    · subst hpq; simp [hg]
    · simp [hpq]

/-! ## Construction -/

theorem openSink_ok (config : LoggerConfig) (severity : String) (logLevel : log.Level)
    (inst inst1 : logrus) (fs fs1 : FS)
    (h : openSink config severity logLevel inst fs = Except.ok (inst1, fs1)) :
    os.OpenFile (logPath config.LogDir severity) fs = Except.ok fs1 ∧
      inst1.contextFields = inst.contextFields ∧
      inst1.logger = inst.logger.set severity
        { Out := if config.Env = "PROD" ∨ config.Env = "STAGE"
            then [Writer.file (logPath config.LogDir severity)]
            else [Writer.file (logPath config.LogDir severity), Writer.stdout],
          Formatter := log.Formatter.JSONFormatter,
          Level := logLevel } := by
  unfold openSink at h
  cases hop : os.OpenFile (logPath config.LogDir severity) fs with
  | error e => simp [hop] at h
  | ok fs2 =>
    simp only [hop, Except.ok.injEq, Prod.mk.injEq] at h
    obtain ⟨h1, h2⟩ := h
    subst h1 h2
    refine ⟨rfl, rfl, ?_⟩
    by_cases he : config.Env = "PROD" ∨ config.Env = "STAGE"
    · simp [he, log.New, log.Logger.SetFormatter, log.Logger.SetLevel, log.Logger.SetOutput]
    · simp [he, log.New, log.Logger.SetFormatter, log.Logger.SetLevel, log.Logger.SetOutput]

theorem openSink_error (config : LoggerConfig) (severity : String) (logLevel : log.Level)
    (inst : logrus) (fs : FS)
    (h : ¬ ∃ fs1, os.OpenFile (logPath config.LogDir severity) fs = Except.ok fs1) :
    openSink config severity logLevel inst fs
      = Except.error "Error occured while creating logger file" := by
  obtain ⟨e, he⟩ := os.OpenFile_error_of_not_ok _ _ h
  simp [openSink, he]

theorem openSink_ok_of_open (config : LoggerConfig) (severity : String) (logLevel : log.Level)
    (inst : logrus) (fs fs1 : FS)
    (h : os.OpenFile (logPath config.LogDir severity) fs = Except.ok fs1) :
    ∃ inst1, openSink config severity logLevel inst fs = Except.ok (inst1, fs1) := by
  simp [openSink, h]

/-- What a completed loop leaves behind, for any visiting order. -/
theorem openSinks_ok (config : LoggerConfig) (order : List (String × log.Level))
    (inst inst1 : logrus) (fs fs1 : FS)
    (h : openSinks config order inst fs = Except.ok (inst1, fs1)) :
    inst1.contextFields = inst.contextFields ∧
    fs1.dirs = fs.dirs ∧ fs1.unwritable = fs.unwritable ∧ fs1.unreadable = fs.unreadable ∧
    (∀ k, k ∉ order.map Prod.fst → inst1.logger.get? k = inst.logger.get? k) ∧
    (∀ severity logLevel, (severity, logLevel) ∈ order → (order.map Prod.fst).Nodup →
      inst1.logger.get? severity = some
        { Out := if config.Env = "PROD" ∨ config.Env = "STAGE"
            then [Writer.file (logPath config.LogDir severity)]
            else [Writer.file (logPath config.LogDir severity), Writer.stdout],
          Formatter := log.Formatter.JSONFormatter,
          Level := logLevel }) ∧
    (∀ severity, severity ∈ order.map Prod.fst →
      ∃ fs2, os.OpenFile (logPath config.LogDir severity) fs = Except.ok fs2) ∧
    (∀ q, fs1.files.get? q
      = if q ∈ order.map (fun p => logPath config.LogDir p.1) ∧ fs.files.get? q = none
        then some [] else fs.files.get? q) := by
  induction order generalizing inst fs with
  | nil =>
    simp only [openSinks, Except.ok.injEq, Prod.mk.injEq] at h
    obtain ⟨rfl, rfl⟩ := h
    simp
  | cons hd rest ih =>
    obtain ⟨sev, lvl⟩ := hd
    unfold openSinks at h
    cases hstep : openSink config sev lvl inst fs with
    | error e => simp [hstep] at h
    | ok pr =>
      obtain ⟨instA, fsA⟩ := pr
      simp only [hstep] at h
      obtain ⟨hopen, hcf, hlog⟩ := openSink_ok _ _ _ _ _ _ _ hstep
      obtain ⟨hd1, hd2, hd3, hfiles⟩ := os.OpenFile_frame _ _ _ hopen
      obtain ⟨i1, i2, i3, i4, i5, i6, i7, i8⟩ := ih instA fsA h
      refine ⟨i1.trans hcf, i2.trans hd1, i3.trans hd2, i4.trans hd3, ?_, ?_, ?_, ?_⟩
      · intro k hk
        simp only [List.map_cons, List.mem_cons, not_or] at hk
        rw [i5 k hk.2, hlog, Map.get?_set, if_neg (fun hh => hk.1 hh.symm)]
      · intro severity logLevel hmem hnd
        simp only [List.map_cons, List.nodup_cons] at hnd
        rcases List.mem_cons.mp hmem with heq | hmem
        · simp only [Prod.mk.injEq] at heq
          obtain ⟨rfl, rfl⟩ := heq
          rw [i5 severity hnd.1, hlog, Map.get?_set, if_pos rfl]
        · exact i6 severity logLevel hmem hnd.2
      · intro severity hmem
        simp only [List.map_cons, List.mem_cons] at hmem
        rcases hmem with rfl | hmem
        · exact ⟨fsA, hopen⟩
        · obtain ⟨fs2, hfs2⟩ := i7 severity hmem
          have hok := (os.OpenFile_ok_iff _ _).mp ⟨fs2, hfs2⟩
          rw [hd1, hd2] at hok
          exact (os.OpenFile_ok_iff _ _).mpr hok
      · intro q
        by_cases hq : logPath config.LogDir sev = q
        · subst hq
          rw [i8, hfiles]
          cases hg : fs.files.get? (logPath config.LogDir sev) <;> simp [hg]
        · have hq2 : ¬ q = logPath config.LogDir sev := fun hh => hq hh.symm
          have hA : fsA.files.get? q = fs.files.get? q := by
            rw [hfiles q, if_neg (fun hh => hq hh.1)]
          rw [i8 q, hA]
          simp only [List.map_cons, List.mem_cons, hq2, false_or]

/-- The loop completes when every file of the order can be opened. -/
theorem openSinks_ok_of_open (config : LoggerConfig) (order : List (String × log.Level))
    (inst : logrus) (fs : FS)
    (h : ∀ severity, severity ∈ order.map Prod.fst →
      ∃ fs2, os.OpenFile (logPath config.LogDir severity) fs = Except.ok fs2) :
    ∃ inst1 fs1, openSinks config order inst fs = Except.ok (inst1, fs1) := by
  induction order generalizing inst fs with
  | nil => exact ⟨inst, fs, rfl⟩
  | cons hd rest ih =>
    obtain ⟨sev, lvl⟩ := hd
    obtain ⟨fsA, hopen⟩ := h sev (by simp)
    obtain ⟨instA, hstep⟩ := openSink_ok_of_open config sev lvl inst fs fsA hopen
    obtain ⟨hd1, hd2, _, _⟩ := os.OpenFile_frame _ _ _ hopen
    have hrest : ∀ severity, severity ∈ rest.map Prod.fst →
        ∃ fs2, os.OpenFile (logPath config.LogDir severity) fsA = Except.ok fs2 := by
      intro severity hmem
      have hok := (os.OpenFile_ok_iff _ _).mp (h severity (by simp; exact Or.inr (by simpa using hmem)))
      rw [← hd1, ← hd2] at hok
      exact (os.OpenFile_ok_iff _ _).mpr hok
    obtain ⟨inst1, fs1, hfin⟩ := ih instA fsA hrest
    exact ⟨inst1, fs1, by simp [openSinks, hstep, hfin]⟩

/-- The loop ends in the fatal error as soon as one file of the order cannot be opened. -/
theorem openSinks_error (config : LoggerConfig) (order : List (String × log.Level))
    (inst : logrus) (fs : FS) (severity : String) (hmem : severity ∈ order.map Prod.fst)
    (h : ¬ ∃ fs2, os.OpenFile (logPath config.LogDir severity) fs = Except.ok fs2) :
    openSinks config order inst fs
      = Except.error "Error occured while creating logger file" := by
  induction order generalizing inst fs with
  | nil => simp at hmem
  | cons hd rest ih =>
    obtain ⟨sev, lvl⟩ := hd
    unfold openSinks
    cases hstep : openSink config sev lvl inst fs with
    | error e =>
      by_cases hop : ∃ fs2, os.OpenFile (logPath config.LogDir sev) fs = Except.ok fs2
      · obtain ⟨fs2, hfs2⟩ := hop
        obtain ⟨instA, hA⟩ := openSink_ok_of_open config sev lvl inst fs fs2 hfs2
        rw [hA] at hstep
        cases hstep
      · rw [openSink_error _ _ _ _ _ hop] at hstep
        simp only [Except.error.injEq] at hstep
        simp [← hstep]
    | ok pr =>
      obtain ⟨instA, fsA⟩ := pr
      obtain ⟨hopen, _, _⟩ := openSink_ok _ _ _ _ _ _ _ hstep
      obtain ⟨hd1, hd2, _, _⟩ := os.OpenFile_frame _ _ _ hopen
      simp only [List.map_cons, List.mem_cons] at hmem
      rcases hmem with rfl | hmem
      · exact absurd ⟨fsA, hopen⟩ h
      · apply ih instA fsA hmem
        intro hex
        apply h
        have hok := (os.OpenFile_ok_iff _ _).mp hex
        rw [hd1, hd2] at hok
        exact (os.OpenFile_ok_iff _ _).mpr hok

theorem logLevels_keys_nodup : (logLevels.map Prod.fst).Nodup := by decide

theorem perm_mem_keys (order : List (String × log.Level)) (hperm : order.Perm logLevels)
    (k : String) : k ∈ order.map Prod.fst ↔ k ∈ logLevels.map Prod.fst :=
  (hperm.map Prod.fst).mem_iff

theorem os.Stat_empty (fs : FS) : os.IsNotExist (os.Stat "" fs) = true := by
  simp [os.Stat, os.IsNotExist]

/-- A completed directory step leaves a log directory with a name. -/
theorem ensureLogDir_ne_empty (config : LoggerConfig) (fs fs0 : FS)
    (h : ensureLogDir config fs = Except.ok fs0) : config.LogDir ≠ "" := by
  intro he
  unfold ensureLogDir at h
  rw [he, if_pos (os.Stat_empty fs)] at h
  simp [os.Mkdir] at h

theorem ensureLogDir_ok (config : LoggerConfig) (fs fs0 : FS)
    (h : ensureLogDir config fs = Except.ok fs0) :
    (os.IsNotExist (os.Stat config.LogDir fs) = false ∧ fs0 = fs) ∨
      (os.IsNotExist (os.Stat config.LogDir fs) = true ∧
        os.Mkdir config.LogDir fs = Except.ok fs0) := by
  unfold ensureLogDir at h
  by_cases hs : os.IsNotExist (os.Stat config.LogDir fs) = true
  · rw [if_pos hs] at h
    cases hm : os.Mkdir config.LogDir fs with
    | error e => simp [hm] at h
    | ok fs1 =>
      simp only [hm, Except.ok.injEq] at h
      subst h
      exact Or.inr ⟨hs, rfl⟩
  · rw [if_neg hs] at h
    simp only [Except.ok.injEq] at h
    exact Or.inl ⟨by simpa using hs, h.symm⟩

/-- What a successful construction leaves behind: the facade with its four sinks and the
world with the directory and the four files. -/
theorem NewGinLogger_ok (config : LoggerConfig) (names : List ContextField)
    (order : List (String × log.Level)) (w : World) (l : logrus) (w1 : World)
    (hperm : order.Perm logLevels)
    (h : NewGinLogger config names order w = Except.ok (l, w1)) :
    l.contextFields = names ∧ w1.stdout = w.stdout ∧ w1.stderr = w.stderr ∧
    config.LogDir ∈ w1.fs.dirs ∧
    (∀ severity logLevel, (severity, logLevel) ∈ logLevels →
      l.logger.get? severity = some
        { Out := if config.Env = "PROD" ∨ config.Env = "STAGE"
            then [Writer.file (logPath config.LogDir severity)]
            else [Writer.file (logPath config.LogDir severity), Writer.stdout],
          Formatter := log.Formatter.JSONFormatter,
          Level := logLevel }) ∧
    (∀ k, k ∉ logLevels.map Prod.fst → l.logger.get? k = none) ∧
    (∀ severity, severity ∈ logLevels.map Prod.fst →
      (w1.file (logPath config.LogDir severity)).isSome = true) ∧
    (∃ fs0, ensureLogDir config w.fs = Except.ok fs0 ∧
      ∀ severity, severity ∈ logLevels.map Prod.fst →
        ∃ fs2, os.OpenFile (logPath config.LogDir severity) fs0 = Except.ok fs2) := by
  unfold NewGinLogger at h
  cases hdir : ensureLogDir config w.fs with
  | error e => simp [hdir] at h
  | ok fs0 =>
    simp only [hdir] at h
    cases hloop : openSinks config order { logger := [], contextFields := names } fs0 with
    | error e => simp [hloop] at h
    | ok pr =>
      obtain ⟨inst1, fs1⟩ := pr
      simp only [hloop, Except.ok.injEq, Prod.mk.injEq] at h
      obtain ⟨rfl, rfl⟩ := h
      obtain ⟨i1, i2, _, _, i5, i6, i7, i8⟩ := openSinks_ok _ _ _ _ _ _ hloop
      have hnd : (order.map Prod.fst).Nodup :=
        (hperm.map Prod.fst).nodup_iff.mpr logLevels_keys_nodup
      have hopen : ∀ severity, severity ∈ logLevels.map Prod.fst →
          ∃ fs2, os.OpenFile (logPath config.LogDir severity) fs0 = Except.ok fs2 :=
        fun severity hs => i7 severity ((perm_mem_keys order hperm severity).mpr hs)
      refine ⟨i1, rfl, rfl, ?_, ?_, ?_, ?_, fs0, rfl, hopen⟩
      · have hinfo := (os.OpenFile_ok_iff _ _).mp (hopen "Info" (by decide))
        rw [parentDir_logPath _ _ (ensureLogDir_ne_empty config w.fs fs0 hdir)
          (by decide)] at hinfo
        show config.LogDir ∈ fs1.dirs
        rw [i2]
        exact hinfo.2.2.2
      · intro severity logLevel hmem
        exact i6 severity logLevel (hperm.mem_iff.mpr hmem) hnd
      · intro k hk
        rw [i5 k (fun hh => hk ((perm_mem_keys order hperm k).mp hh))]
        rfl
      · intro severity hs
        show (fs1.files.get? (logPath config.LogDir severity)).isSome = true
        rw [i8]
        have hin : logPath config.LogDir severity
            ∈ order.map (fun p => logPath config.LogDir p.1) := by
          obtain ⟨pr, hpr, hfst⟩ := List.mem_map.mp ((perm_mem_keys order hperm severity).mpr hs)
          exact List.mem_map.mpr ⟨pr, hpr, by rw [hfst]⟩
        cases hg : fs0.files.get? (logPath config.LogDir severity) <;> simp [hin, hg]

/-- Construction succeeds when the directory step does and the four files can be opened. -/
theorem NewGinLogger_ok_of_open (config : LoggerConfig) (names : List ContextField)
    (order : List (String × log.Level)) (w : World) (fs0 : FS)
    (hperm : order.Perm logLevels)
    (hdir : ensureLogDir config w.fs = Except.ok fs0)
    (hopen : ∀ severity, severity ∈ logLevels.map Prod.fst →
      ∃ fs2, os.OpenFile (logPath config.LogDir severity) fs0 = Except.ok fs2) :
    ∃ l w1, NewGinLogger config names order w = Except.ok (l, w1) := by
  obtain ⟨inst1, fs1, hloop⟩ := openSinks_ok_of_open config order
    { logger := [], contextFields := names } fs0
    (fun severity hs => hopen severity ((perm_mem_keys order hperm severity).mp hs))
  exact ⟨inst1, { w with fs := fs1 }, by simp [NewGinLogger, hdir, hloop]⟩

theorem NewGinLogger_error_of_mkdir (config : LoggerConfig) (names : List ContextField)
    (order : List (String × log.Level)) (w : World)
    (hstat : os.IsNotExist (os.Stat config.LogDir w.fs) = true)
    (hmk : ∀ fs0, os.Mkdir config.LogDir w.fs ≠ Except.ok fs0) :
    NewGinLogger config names order w
      = Except.error "Error occured while creating logger dir" := by
  unfold NewGinLogger ensureLogDir
  rw [if_pos hstat]
  cases hm : os.Mkdir config.LogDir w.fs with
  | error e => rfl
  | ok fs1 => exact absurd hm (hmk fs1)

theorem NewGinLogger_error_of_open (config : LoggerConfig) (names : List ContextField)
    (order : List (String × log.Level)) (w : World) (fs0 : FS) (severity : String)
    (hperm : order.Perm logLevels)
    (hdir : ensureLogDir config w.fs = Except.ok fs0)
    (hs : severity ∈ logLevels.map Prod.fst)
    (hopen : ∀ fs2, os.OpenFile (logPath config.LogDir severity) fs0 ≠ Except.ok fs2) :
    NewGinLogger config names order w
      = Except.error "Error occured while creating logger file" := by
  have hloop := openSinks_error config order { logger := [], contextFields := names } fs0
    severity ((perm_mem_keys order hperm severity).mpr hs)
    (fun ⟨fs2, hfs2⟩ => hopen fs2 hfs2)
  simp [NewGinLogger, hdir, hloop]

/-! ## Logging calls -/

theorem log.Logger.Log_eq (lg : log.Logger) (level : log.Level) (args : List Value)
    (w : World) :
    lg.Log level args w = (lg.WithFields []).Log level args w := by
  show lg.Log level args w
    = log.Entry.Log { Logger := lg, Data := [], err := "" } level args w
  unfold log.Logger.Log log.Entry.Log
  by_cases h : lg.IsLevelEnabled level = true <;> simp [h]

theorem logrus.Debug_eq (ToLower : String → String) (l : logrus) (ctx : Option Context)
    (args : List Value) (w : World) :
    logrus.Debug ToLower l ctx args w
      = (l.logger.get? "Debug").map (fun lg =>
          (lg.WithFields
              ((ctx.map (fun c => getLogFields ToLower c l.contextFields)).getD [])).Log
            log.Level.InfoLevel args w) := by
  unfold logrus.Debug
  cases l.logger.get? "Debug" with
  | none => rfl
  | some lg =>
    cases ctx with
    | none => simp [log.Logger.Info, log.Logger.Log_eq]
    | some c => simp [log.Entry.Info]

theorem logrus.Info_eq (ToLower : String → String) (l : logrus) (ctx : Option Context)
    (args : List Value) (w : World) :
    logrus.Info ToLower l ctx args w
      = (l.logger.get? "Info").map (fun lg =>
          (lg.WithFields
              ((ctx.map (fun c => getLogFields ToLower c l.contextFields)).getD [])).Log
            log.Level.InfoLevel args w) := by
  unfold logrus.Info
  cases l.logger.get? "Info" with
  | none => rfl
  | some lg =>
    cases ctx with
    | none => simp [log.Logger.Info, log.Logger.Log_eq]
    | some c => simp [log.Entry.Info]

theorem logrus.Warning_eq (ToLower : String → String) (l : logrus) (ctx : Option Context)
    (args : List Value) (w : World) :
    logrus.Warning ToLower l ctx args w
      = (l.logger.get? "Warn").map (fun lg =>
          (lg.WithFields
              ((ctx.map (fun c => getLogFields ToLower c l.contextFields)).getD [])).Log
            log.Level.WarnLevel args w) := by
  unfold logrus.Warning
  cases l.logger.get? "Warn" with
  | none => rfl
  | some lg =>
    cases ctx with
    | none => simp [log.Logger.Warn, log.Logger.Log_eq]
    | some c => simp [log.Entry.Warn]

theorem logrus.Error_eq (ToLower : String → String) (l : logrus) (ctx : Option Context)
    (args : List Value) (w : World) :
    logrus.Error ToLower l ctx args w
      = (l.logger.get? "Error").map (fun lg =>
          (lg.WithFields
              ((ctx.map (fun c => getLogFields ToLower c l.contextFields)).getD [])).Log
            log.Level.WarnLevel args w) := by
  unfold logrus.Error
  cases l.logger.get? "Error" with
  | none => rfl
  | some lg =>
    cases ctx with
    | none => simp [log.Logger.Warn, log.Logger.Log_eq]
    | some c => simp [log.Entry.Warn]

/-- An entry without fields is formatted, by either formatter, as the record with the level,
the message and no data. -/
theorem log.Formatter.Format_nil (f : log.Formatter) (lg : log.Logger) (level : log.Level)
    (msg : String) :
    f.Format (lg.WithFields []) level msg
      = Except.ok { level := level, msg := msg, data := [] } := by
  cases f <;> rfl

theorem log.Entry.Log_nil (lg : log.Logger) (level : log.Level) (args : List Value)
    (w : World) :
    (lg.WithFields []).Log level args w
      = if lg.IsLevelEnabled level then
          writeAll lg.Out { level := level, msg := fmt.Sprint args, data := [] } w
        else w := by
  have hf := log.Formatter.Format_nil lg.Formatter lg level (fmt.Sprint args)
  unfold log.Entry.Log
  show (if lg.IsLevelEnabled level = true then
      match lg.Formatter.Format (lg.WithFields []) level (fmt.Sprint args) with
      | Except.ok r => writeAll lg.Out r w
      | Except.error msg =>
        { w with stderr := w.stderr ++ [Line.text ("Failed to obtain reader, " ++ msg)] }
    else w) = _
  rw [hf]

/-- A write changes no file outside the output and leaves the console alone unless the
console is part of the output. -/
theorem writeAll_frame (out : List Writer) (r : Record) (w : World) :
    (∀ q, Writer.file q ∉ out → (writeAll out r w).file q = w.file q) ∧
    (Writer.stdout ∉ out → (writeAll out r w).stdout = w.stdout) := by
  induction out generalizing w with
  | nil => exact ⟨fun _ _ => rfl, fun _ => rfl⟩
  | cons wr rest ih =>
    have hstep : writeAll (wr :: rest) r w = writeAll rest r (wr.Write r w) := rfl
    rw [hstep]
    obtain ⟨ih1, ih2⟩ := ih (wr.Write r w)
    constructor
    · intro q hq
      rw [ih1 q (fun hh => hq (List.mem_cons_of_mem _ hh))]
      have hne : wr ≠ Writer.file q := fun hh => hq (hh ▸ List.mem_cons_self _ _)
      cases wr with
      | stderr => rfl
      | stdout => rfl
      | file p =>
        show (w.fs.append p r).files.get? q = w.fs.files.get? q
        rw [FS.append_get?, if_neg (fun hh => hne (by rw [hh]))]
    · intro hq
      rw [ih2 (fun hh => hq (List.mem_cons_of_mem _ hh))]
      have hne : wr ≠ Writer.stdout := fun hh => hq (hh ▸ List.mem_cons_self _ _)
      cases wr with
      | stderr => rfl
      | stdout => exact absurd rfl hne
      | file p => rfl

/-- An emission changes no file outside the output of its sink and leaves the console alone
unless the console is part of that output. -/
theorem log.Entry.Log_frame (e : log.Entry) (level : log.Level) (args : List Value)
    (w : World) :
    (∀ q, Writer.file q ∉ e.Logger.Out → (e.Log level args w).file q = w.file q) ∧
    (Writer.stdout ∉ e.Logger.Out → (e.Log level args w).stdout = w.stdout) := by
  unfold log.Entry.Log
  by_cases hen : e.Logger.IsLevelEnabled level = true
  · rw [if_pos hen]
    cases e.Logger.Formatter.Format e level (fmt.Sprint args) with
    | error msg => exact ⟨fun _ _ => rfl, fun _ => rfl⟩
    | ok r => exact writeAll_frame e.Logger.Out r w
  · rw [if_neg hen]
    exact ⟨fun _ _ => rfl, fun _ => rfl⟩

theorem writeAll_file (p : String) (r : Record) (w : World) :
    writeAll [Writer.file p] r w = { w with fs := w.fs.append p r } := rfl

theorem writeAll_file_stdout (p : String) (r : Record) (w : World) :
    writeAll [Writer.file p, Writer.stdout] r w
      = { w with fs := w.fs.append p r, stdout := w.stdout ++ [r] } := rfl

theorem sinks_of_built (config : LoggerConfig) (names : List ContextField)
    (order : List (String × log.Level)) (w : World) (l : logrus) (w1 : World)
    (hperm : order.Perm logLevels)
    (h : NewGinLogger config names order w = Except.ok (l, w1))
    (severity : String) (logLevel : log.Level) (hmem : (severity, logLevel) ∈ logLevels) :
    l.logger.get? severity = some
      { Out := if config.Env = "PROD" ∨ config.Env = "STAGE"
          then [Writer.file (logPath config.LogDir severity)]
          else [Writer.file (logPath config.LogDir severity), Writer.stdout],
        Formatter := log.Formatter.JSONFormatter,
        Level := logLevel } :=
  (NewGinLogger_ok config names order w l w1 hperm h).2.2.2.2.1 severity logLevel hmem

/-- What one write through a built sink does to the world: the record goes to the end of
the file of the sink, to the console unless `Env` is `PROD` or `STAGE`, and nowhere else. -/
theorem built_sink_write (env dir severity : String) (r : Record) (w : World) :
    (writeAll (if env = "PROD" ∨ env = "STAGE"
        then [Writer.file (logPath dir severity)]
        else [Writer.file (logPath dir severity), Writer.stdout]) r w).file
          (logPath dir severity)
      = (w.file (logPath dir severity)).map (fun c => c ++ [r]) ∧
    (∀ q, q ≠ logPath dir severity →
      (writeAll (if env = "PROD" ∨ env = "STAGE"
        then [Writer.file (logPath dir severity)]
        else [Writer.file (logPath dir severity), Writer.stdout]) r w).file q = w.file q) ∧
    (writeAll (if env = "PROD" ∨ env = "STAGE"
        then [Writer.file (logPath dir severity)]
        else [Writer.file (logPath dir severity), Writer.stdout]) r w).stdout
      = (if env = "PROD" ∨ env = "STAGE" then w.stdout else w.stdout ++ [r]) ∧
    (writeAll (if env = "PROD" ∨ env = "STAGE"
        then [Writer.file (logPath dir severity)]
        else [Writer.file (logPath dir severity), Writer.stdout]) r w).stderr = w.stderr := by
  by_cases he : env = "PROD" ∨ env = "STAGE"
  · simp only [if_pos he, writeAll_file]
    refine ⟨?_, ?_, ?_, ?_⟩
    · show (w.fs.append _ r).files.get? _ = _
      rw [FS.append_get?, if_pos rfl]
      rfl
    · intro q hq
      show (w.fs.append _ r).files.get? q = w.fs.files.get? q
      rw [FS.append_get?, if_neg (fun hh => hq hh.symm)]
    · trivial
    · trivial
  · simp only [if_neg he, writeAll_file_stdout]
    refine ⟨?_, ?_, ?_, ?_⟩
    · show (w.fs.append _ r).files.get? _ = _
      rw [FS.append_get?, if_pos rfl]
      rfl
    · intro q hq
      show (w.fs.append _ r).files.get? q = w.fs.files.get? q
      rw [FS.append_get?, if_neg (fun hh => hq hh.symm)]
    · trivial
    · trivial

/-- An emission at a level the sink does not let through changes nothing. -/
theorem log.Entry.Log_dropped (e : log.Entry) (level : log.Level) (args : List Value)
    (w : World) (hlt : e.Logger.Level.toNat < level.toNat) :
    e.Log level args w = w := by
  simp [log.Entry.Log, log.Logger.IsLevelEnabled, Nat.not_le.mpr hlt]

/-- An emission at a level the sink lets through, with an entry the formatter of the sink
accepts, is one write of the formatted record. -/
theorem log.Entry.Log_ok (e : log.Entry) (level : log.Level) (args : List Value)
    (w : World) (r : Record) (hle : level.toNat ≤ e.Logger.Level.toNat)
    (hf : e.Logger.Formatter.Format e level (fmt.Sprint args) = Except.ok r) :
    e.Log level args w = writeAll e.Logger.Out r w := by
  simp [log.Entry.Log, log.Logger.IsLevelEnabled, hle, hf]

/-! ## The formatter -/

theorem log.prefixFieldClash_values (P : Value → Prop) (data : log.Fields) (key : String)
    (h : ∀ p ∈ data, P p.2) : ∀ p ∈ log.prefixFieldClash data key, P p.2 := by
  intro p hp
  unfold log.prefixFieldClash at hp
  cases hg : data.get? key with
  | none =>
    rw [hg] at hp
    exact h p hp
  | some v =>
    rw [hg] at hp
    rcases Map.mem_set _ _ _ _ (Map.mem_erase _ _ _ hp) with rfl | hmem
    · exact h (key, v) (Map.mem_of_get? data key v hg)
    · exact h p hmem

theorem log.prefixFieldClashes_values (P : Value → Prop) (data : log.Fields)
    (h : ∀ p ∈ data, P p.2) : ∀ p ∈ log.prefixFieldClashes data, P p.2 := by
  unfold log.prefixFieldClashes
  exact log.prefixFieldClash_values P _ _
    (log.prefixFieldClash_values P _ _
      (log.prefixFieldClash_values P _ _ (log.prefixFieldClash_values P _ _ h)))

theorem log.errorText_encodable (data : log.Fields)
    (h : ∀ p ∈ data, p.2.encodable = true) : ∀ p ∈ log.errorText data, p.2.encodable = true := by
  intro p hp
  unfold log.errorText at hp
  obtain ⟨q, hq, rfl⟩ := List.mem_map.mp hp
  have hq2 := h q hq
  obtain ⟨k, v⟩ := q
  cases v <;> exact hq2

theorem log.Logger.WithFields_of_no_func (lg : log.Logger) (fields : log.Fields)
    (h : ∀ p ∈ fields, p.2.isFunc = false) :
    lg.WithFields fields = { Logger := lg, Data := fields, err := "" } := by
  have hdata : fields.filter (fun p => !p.2.isFunc) = fields := by
    apply List.filter_eq_self.mpr
    intro p hp
    simp [h p hp]
  have herr : ∀ (acc : String) (fs : log.Fields), (∀ p ∈ fs, p.2.isFunc = false) →
      fs.foldl
        (fun fieldErr p =>
          if p.2.isFunc then
            if fieldErr != "" then "" ++ ", " ++ ("can not add field " ++ strconv.Quote p.1)
            else "can not add field " ++ strconv.Quote p.1
          else fieldErr) acc = acc := by
    intro acc fs
    induction fs generalizing acc with
    | nil => intro _; rfl
    | cons hd rest ih =>
      intro hall
      rw [List.foldl_cons]
      have hhd : hd.2.isFunc = false := hall hd (List.mem_cons_self _ _)
      simp only [hhd, Bool.false_eq_true, if_false]
      exact ih acc (fun p hp => hall p (List.mem_cons_of_mem _ hp))
  unfold log.Logger.WithFields
  simp only [hdata, herr "" fields h]

/-- The JSON formatter accepts an entry whose fields hold no function and only values that
can be encoded, and gives the record with the error texts and the prefixed keys. -/
theorem log.JSONFormatter.Format_ok (lg : log.Logger) (fields : log.Fields)
    (level : log.Level) (msg : String)
    (h : ∀ p ∈ fields, p.2.isFunc = false ∧ p.2.encodable = true) :
    log.JSONFormatter.Format (lg.WithFields fields) level msg
      = Except.ok { level := level, msg := msg,
                    data := log.prefixFieldClashes (log.errorText fields) } := by
  rw [log.Logger.WithFields_of_no_func lg fields (fun p hp => (h p hp).1)]
  have hall : (log.prefixFieldClashes (log.errorText fields)).all
      (fun p => p.2.encodable) = true := by
    rw [List.all_eq_true]
    exact log.prefixFieldClashes_values (fun v => v.encodable = true) _
      (log.errorText_encodable fields (fun p hp => (h p hp).2))
  unfold log.JSONFormatter.Format
  simp only [log.addEntryErr]
  simp [hall]

/-- The files of the four severities are four different files. -/
theorem logPath_ne (dir s1 s2 : String) (h : s1 ≠ s2) : logPath dir s1 ≠ logPath dir s2 :=
  fun hh => h (logPath_injective dir s1 s2 hh)

theorem severities_mem_logLevels (severity : String) :
    severity ∈ ["Debug", "Info", "Warn", "Error"] ↔ severity ∈ logLevels.map Prod.fst := by
  simp only [logLevels, List.map_cons, List.map_nil, List.mem_cons, List.mem_singleton,
    List.not_mem_nil, or_false]
  tauto

/-! ## The claims about construction -/

/-- C3. Each of the four sinks of a built facade writes to its file only when `Env` is
exactly `PROD` or exactly `STAGE`, and to its file and the console stream for every other
value of `Env`; with `PROD` or `STAGE` no call of the four methods changes the console. -/
theorem NewGinLogger_output_by_env (config : LoggerConfig) (names : List ContextField)
    (order : List (String × log.Level)) (w : World) (l : logrus) (w1 : World)
    (hperm : order.Perm logLevels)
    (h : NewGinLogger config names order w = Except.ok (l, w1)) :
    (∀ severity ∈ ["Debug", "Info", "Warn", "Error"], ∃ lg, l.logger.get? severity = some lg ∧
      (config.Env = "PROD" ∨ config.Env = "STAGE" →
        lg.Out = [Writer.file (logPath config.LogDir severity)]) ∧
      (config.Env ≠ "PROD" → config.Env ≠ "STAGE" →
        lg.Out = [Writer.file (logPath config.LogDir severity), Writer.stdout])) ∧
    (config.Env = "PROD" ∨ config.Env = "STAGE" →
      ∀ (ToLower : String → String) (ctx : Option Context) (args : List Value) (w2 w3 : World),
        (logrus.Debug ToLower l ctx args w2 = some w3 ∨
          logrus.Info ToLower l ctx args w2 = some w3 ∨
          logrus.Warning ToLower l ctx args w2 = some w3 ∨
          logrus.Error ToLower l ctx args w2 = some w3) →
        w3.stdout = w2.stdout) := by
  have hsinks := sinks_of_built config names order w l w1 hperm h
  constructor
  · intro severity hs
    obtain ⟨pr, hpr, hfst⟩ := List.mem_map.mp ((severities_mem_logLevels severity).mp hs)
    obtain ⟨sev, lvl⟩ := pr
    simp only at hfst
    subst hfst
    refine ⟨_, hsinks sev lvl hpr, ?_, ?_⟩
    · intro he
      simp [he]
    · intro h1 h2
      simp [h1, h2]
  · intro he ToLower ctx args w2 w3 hcall
    have hD := hsinks "Debug" log.Level.DebugLevel (by decide)
    have hI := hsinks "Info" log.Level.InfoLevel (by decide)
    have hW := hsinks "Warn" log.Level.WarnLevel (by decide)
    have hE := hsinks "Error" log.Level.ErrorLevel (by decide)
    rcases hcall with hc | hc | hc | hc
    · rw [logrus.Debug_eq, hD, Option.map_some', Option.some.injEq] at hc
      rw [← hc]
      exact (log.Entry.Log_frame _ _ _ _).2 (by simp [log.Logger.WithFields, he])
    · rw [logrus.Info_eq, hI, Option.map_some', Option.some.injEq] at hc
      rw [← hc]
      exact (log.Entry.Log_frame _ _ _ _).2 (by simp [log.Logger.WithFields, he])
    · rw [logrus.Warning_eq, hW, Option.map_some', Option.some.injEq] at hc
      rw [← hc]
      exact (log.Entry.Log_frame _ _ _ _).2 (by simp [log.Logger.WithFields, he])
    · rw [logrus.Error_eq, hE, Option.map_some', Option.some.injEq] at hc
      rw [← hc]
      exact (log.Entry.Log_frame _ _ _ _).2 (by simp [log.Logger.WithFields, he])

/-- The theorem `NewGinLogger_output_by_env` at a production run and at a run whose `Env` is
the lower-case spelling `prod`. -/
theorem NewGinLogger_output_by_env_witness :
    (logLevels.Perm logLevels ∧
      NewGinLogger prodConfig [] logLevels world0
        = Except.ok (sampleFacade false [], sampleWorld) ∧
      (∀ severity ∈ ["Debug", "Info", "Warn", "Error"],
        ∃ lg, (sampleFacade false []).logger.get? severity = some lg ∧
          (prodConfig.Env = "PROD" ∨ prodConfig.Env = "STAGE" →
            lg.Out = [Writer.file (logPath prodConfig.LogDir severity)]) ∧
          (prodConfig.Env ≠ "PROD" → prodConfig.Env ≠ "STAGE" →
            lg.Out = [Writer.file (logPath prodConfig.LogDir severity), Writer.stdout])) ∧
      ∀ (w3 : World),
        logrus.Info asciiToLower (sampleFacade false []) none [Value.str "hello"] sampleWorld
          = some w3 → w3.stdout = sampleWorld.stdout) ∧
    (∀ severity ∈ ["Debug", "Info", "Warn", "Error"],
        ∃ lg, (sampleFacade true []).logger.get? severity = some lg ∧
          ("prod" = "PROD" ∨ "prod" = "STAGE" →
            lg.Out = [Writer.file (logPath "/tmp/logs" severity)]) ∧
          ("prod" ≠ "PROD" → "prod" ≠ "STAGE" →
            lg.Out = [Writer.file (logPath "/tmp/logs" severity), Writer.stdout])) :=
  ⟨⟨List.Perm.refl _, rfl,
    (NewGinLogger_output_by_env prodConfig [] logLevels world0 (sampleFacade false [])
      sampleWorld (List.Perm.refl _) rfl).1,
    fun w3 h3 =>
      (NewGinLogger_output_by_env prodConfig [] logLevels world0 (sampleFacade false [])
        sampleWorld (List.Perm.refl _) rfl).2 (Or.inl rfl) asciiToLower none
        [Value.str "hello"] sampleWorld w3 (Or.inr (Or.inl h3))⟩,
   (NewGinLogger_output_by_env { Env := "prod", LogDir := "/tmp/logs" } [] logLevels world0
      (sampleFacade true []) sampleWorld (List.Perm.refl _) rfl).1⟩

/-- C9. Construction is all or nothing: a facade is returned only when the log directory was
there or was created, is there afterwards, and the four files were opened and exist with
their four sinks;
a failed `os.Mkdir` of a missing directory and a failed `os.OpenFile` of any of the four
files each end in the fatal error; and in every other case a facade is returned. -/
theorem NewGinLogger_all_or_nothing (config : LoggerConfig) (names : List ContextField)
    (order : List (String × log.Level)) (w : World) (hperm : order.Perm logLevels) :
    (∀ l w1, NewGinLogger config names order w = Except.ok (l, w1) →
      (config.LogDir ∈ w.fs.dirs ∨ ∃ fs0, os.Mkdir config.LogDir w.fs = Except.ok fs0) ∧
      config.LogDir ∈ w1.fs.dirs ∧
      (∃ fs0, ensureLogDir config w.fs = Except.ok fs0 ∧
        ∀ severity ∈ ["Debug", "Info", "Warn", "Error"],
          ∃ fs2, os.OpenFile (logPath config.LogDir severity) fs0 = Except.ok fs2) ∧
      ∀ severity ∈ ["Debug", "Info", "Warn", "Error"],
        (w1.file (logPath config.LogDir severity)).isSome = true ∧
        (l.logger.get? severity).isSome = true) ∧
    (os.IsNotExist (os.Stat config.LogDir w.fs) = true →
      (∃ e, os.Mkdir config.LogDir w.fs = Except.error e) →
      NewGinLogger config names order w
        = Except.error "Error occured while creating logger dir") ∧
    (∀ fs0, ensureLogDir config w.fs = Except.ok fs0 →
      ∀ severity ∈ ["Debug", "Info", "Warn", "Error"],
        (∃ e, os.OpenFile (logPath config.LogDir severity) fs0 = Except.error e) →
        NewGinLogger config names order w
          = Except.error "Error occured while creating logger file") ∧
    (∀ fs0, ensureLogDir config w.fs = Except.ok fs0 →
      (∀ severity ∈ ["Debug", "Info", "Warn", "Error"],
        ∃ fs2, os.OpenFile (logPath config.LogDir severity) fs0 = Except.ok fs2) →
      ∃ l w1, NewGinLogger config names order w = Except.ok (l, w1)) := by
  have hkeys : ∀ severity, severity ∈ ["Debug", "Info", "Warn", "Error"]
      ↔ severity ∈ logLevels.map Prod.fst := by
    intro severity
    simp only [logLevels, List.map_cons, List.map_nil, List.mem_cons, List.mem_singleton,
      List.not_mem_nil, or_false]
    tauto
  refine ⟨?_, ?_, ?_, ?_⟩
  · intro l w1 h
    obtain ⟨_, _, _, hdirs, hsinks, _, hfiles, fs0, hdir, hopen⟩ :=
      NewGinLogger_ok config names order w l w1 hperm h
    refine ⟨?_, hdirs,
      ⟨fs0, hdir, fun severity hs => hopen severity ((hkeys severity).mp hs)⟩, ?_⟩
    · have hne := ensureLogDir_ne_empty config w.fs fs0 hdir
      rcases ensureLogDir_ok config w.fs fs0 hdir with ⟨_, rfl⟩ | ⟨_, hm⟩
      · have hinfo := (os.OpenFile_ok_iff _ _).mp (hopen "Info" (by decide))
        rw [parentDir_logPath _ _ hne (by decide)] at hinfo
        exact Or.inl hinfo.2.2.2
      · exact Or.inr ⟨fs0, hm⟩
    · intro severity hs
      have hs1 := (hkeys severity).mp hs
      refine ⟨hfiles severity hs1, ?_⟩
      obtain ⟨pr, hpr, hfst⟩ := List.mem_map.mp hs1
      obtain ⟨sev, lvl⟩ := pr
      simp only at hfst
      subst hfst
      rw [hsinks sev lvl hpr]
      rfl
  · rintro hstat ⟨e, he⟩
    exact NewGinLogger_error_of_mkdir config names order w hstat
      (fun fs0 hfs0 => by rw [he] at hfs0; cases hfs0)
  · rintro fs0 hdir severity hs ⟨e, he⟩
    exact NewGinLogger_error_of_open config names order w fs0 severity hperm hdir
      ((hkeys severity).mp hs) (fun fs2 hfs2 => by rw [he] at hfs2; cases hfs2)
  · intro fs0 hdir hopen
    exact NewGinLogger_ok_of_open config names order w fs0 hperm hdir
      (fun severity hs => hopen severity ((hkeys severity).mpr hs))

/-- The theorem `NewGinLogger_all_or_nothing` at three runs: one that builds the facade, one
whose directory cannot be created and one whose file `Warn.log` cannot be opened. -/
theorem NewGinLogger_all_or_nothing_witness :
    (logLevels.Perm logLevels ∧
      NewGinLogger devConfig [] logLevels world0 = Except.ok (sampleFacade true [], sampleWorld) ∧
      (devConfig.LogDir ∈ world0.fs.dirs ∨
        ∃ fs0, os.Mkdir devConfig.LogDir world0.fs = Except.ok fs0) ∧
      devConfig.LogDir ∈ sampleWorld.fs.dirs ∧
      (∃ fs0, ensureLogDir devConfig world0.fs = Except.ok fs0 ∧
        ∀ severity ∈ ["Debug", "Info", "Warn", "Error"],
          ∃ fs2, os.OpenFile (logPath devConfig.LogDir severity) fs0 = Except.ok fs2) ∧
      ∀ severity ∈ ["Debug", "Info", "Warn", "Error"],
        (sampleWorld.file (logPath devConfig.LogDir severity)).isSome = true ∧
        ((sampleFacade true []).logger.get? severity).isSome = true) ∧
    NewGinLogger devConfig [] logLevels (worldLocked "/tmp/logs")
      = Except.error "Error occured while creating logger dir" ∧
    NewGinLogger devConfig [] logLevels (worldLocked "/tmp/logs/Warn.log")
      = Except.error "Error occured while creating logger file" :=
  ⟨⟨List.Perm.refl _, rfl,
    (NewGinLogger_all_or_nothing devConfig [] logLevels world0 (List.Perm.refl _)).1
      (sampleFacade true []) sampleWorld rfl⟩,
   (NewGinLogger_all_or_nothing devConfig [] logLevels (worldLocked "/tmp/logs")
      (List.Perm.refl _)).2.1 (by decide) ⟨os.Error.other, rfl⟩,
   (NewGinLogger_all_or_nothing devConfig [] logLevels (worldLocked "/tmp/logs/Warn.log")
      (List.Perm.refl _)).2.2.1
      { fsTmp with dirs := ["/tmp/logs", "/tmp"], unwritable := ["/tmp/logs/Warn.log"] }
      rfl "Warn" (by decide) ⟨os.Error.other, rfl⟩⟩

/-- C10. A built facade has exactly the sinks `Debug`, `Info`, `Warn` and `Error`, the sink
under `s` writes to the file `s.log` of the log directory (and otherwise only to the
console), and none of the four methods meets a missing sink. -/
theorem NewGinLogger_registry (config : LoggerConfig) (names : List ContextField)
    (order : List (String × log.Level)) (w : World) (l : logrus) (w1 : World)
    (hperm : order.Perm logLevels)
    (h : NewGinLogger config names order w = Except.ok (l, w1)) :
    (∀ k, (l.logger.get? k).isSome = true ↔ k ∈ ["Debug", "Info", "Warn", "Error"]) ∧
    (∀ s ∈ ["Debug", "Info", "Warn", "Error"], ∃ lg, l.logger.get? s = some lg ∧
      Writer.file (logPath config.LogDir s) ∈ lg.Out ∧
      ∀ wr ∈ lg.Out, wr = Writer.file (logPath config.LogDir s) ∨ wr = Writer.stdout) ∧
    (∀ (ToLower : String → String) (ctx : Option Context) (args : List Value) (w2 : World),
      (logrus.Debug ToLower l ctx args w2).isSome = true ∧
      (logrus.Info ToLower l ctx args w2).isSome = true ∧
      (logrus.Warning ToLower l ctx args w2).isSome = true ∧
      (logrus.Error ToLower l ctx args w2).isSome = true) := by
  have hkeys : ∀ severity, severity ∈ ["Debug", "Info", "Warn", "Error"]
      ↔ severity ∈ logLevels.map Prod.fst := by
    intro severity
    simp only [logLevels, List.map_cons, List.map_nil, List.mem_cons, List.mem_singleton,
      List.not_mem_nil, or_false]
    tauto
  obtain ⟨_, _, _, _, hsinks, hnone, _, _⟩ := NewGinLogger_ok config names order w l w1 hperm h
  refine ⟨?_, ?_, ?_⟩
  · intro k
    constructor
    · intro hk
      by_contra hnot
      rw [hnone k (fun hh => hnot ((hkeys k).mpr hh))] at hk
      simp at hk
    · intro hk
      obtain ⟨pr, hpr, hfst⟩ := List.mem_map.mp ((hkeys k).mp hk)
      obtain ⟨sev, lvl⟩ := pr
      simp only at hfst
      subst hfst
      rw [hsinks sev lvl hpr]
      rfl
  · intro s hs
    obtain ⟨pr, hpr, hfst⟩ := List.mem_map.mp ((hkeys s).mp hs)
    obtain ⟨sev, lvl⟩ := pr
    simp only at hfst
    subst hfst
    refine ⟨_, hsinks sev lvl hpr, ?_, ?_⟩
    · by_cases he : config.Env = "PROD" ∨ config.Env = "STAGE" <;> simp [he]
    · intro wr hwr
      by_cases he : config.Env = "PROD" ∨ config.Env = "STAGE"
      · simp only [if_pos he, List.mem_singleton] at hwr
        exact Or.inl hwr
      · simp only [if_neg he, List.mem_cons, List.mem_singleton, List.not_mem_nil,
          or_false] at hwr
        exact hwr
  · intro ToLower ctx args w2
    have hD := hsinks "Debug" log.Level.DebugLevel (by decide)
    have hI := hsinks "Info" log.Level.InfoLevel (by decide)
    have hW := hsinks "Warn" log.Level.WarnLevel (by decide)
    have hE := hsinks "Error" log.Level.ErrorLevel (by decide)
    refine ⟨?_, ?_, ?_, ?_⟩
    · unfold logrus.Debug
      rw [hD]
      cases ctx <;> rfl
    · unfold logrus.Info
      rw [hI]
      cases ctx <;> rfl
    · unfold logrus.Warning
      rw [hW]
      cases ctx <;> rfl
    · unfold logrus.Error
      rw [hE]
      cases ctx <;> rfl

/-- The theorem `NewGinLogger_registry` at the development run on `/tmp/logs`. -/
theorem NewGinLogger_registry_witness :
    logLevels.Perm logLevels ∧
    NewGinLogger devConfig ["X-Request-Id"] logLevels world0
      = Except.ok (sampleFacade true ["X-Request-Id"], sampleWorld) ∧
    (∀ k, ((sampleFacade true ["X-Request-Id"]).logger.get? k).isSome = true
      ↔ k ∈ ["Debug", "Info", "Warn", "Error"]) ∧
    (∀ s ∈ ["Debug", "Info", "Warn", "Error"],
      ∃ lg, (sampleFacade true ["X-Request-Id"]).logger.get? s = some lg ∧
        Writer.file (logPath devConfig.LogDir s) ∈ lg.Out ∧
        ∀ wr ∈ lg.Out, wr = Writer.file (logPath devConfig.LogDir s) ∨ wr = Writer.stdout) ∧
    (∀ (ToLower : String → String) (ctx : Option Context) (args : List Value) (w2 : World),
      (logrus.Debug ToLower (sampleFacade true ["X-Request-Id"]) ctx args w2).isSome = true ∧
      (logrus.Info ToLower (sampleFacade true ["X-Request-Id"]) ctx args w2).isSome = true ∧
      (logrus.Warning ToLower (sampleFacade true ["X-Request-Id"]) ctx args w2).isSome = true ∧
      (logrus.Error ToLower (sampleFacade true ["X-Request-Id"]) ctx args w2).isSome = true) :=
  ⟨List.Perm.refl _, rfl,
    NewGinLogger_registry devConfig ["X-Request-Id"] logLevels world0
      (sampleFacade true ["X-Request-Id"]) sampleWorld (List.Perm.refl _) rfl⟩

/-! ## The claims about the four methods -/

/-- C4. On a built facade `Error` appends nothing: its entry is emitted at `WarnLevel` on a
sink whose level is `ErrorLevel`, and the sink drops it, so the world stays as it is; each
of `Debug`, `Info` and `Warning` does append one record to the file of its own severity
when the fields hold no function and only values that can be encoded (always so with a nil
context). -/
theorem Error_appends_nothing (config : LoggerConfig) (names : List ContextField)
    (order : List (String × log.Level)) (w : World) (l : logrus) (w1 : World)
    (hperm : order.Perm logLevels)
    (h : NewGinLogger config names order w = Except.ok (l, w1)) :
    ∀ (ToLower : String → String) (ctx : Option Context) (args : List Value) (w2 : World),
      logrus.Error ToLower l ctx args w2 = some w2 ∧
      ((∀ p ∈ (ctx.map (fun c => getLogFields ToLower c l.contextFields)).getD [],
          p.2.isFunc = false ∧ p.2.encodable = true) →
        (∃ w3, logrus.Debug ToLower l ctx args w2 = some w3 ∧
          w3.file (logPath config.LogDir "Debug")
            = (w2.file (logPath config.LogDir "Debug")).map (fun c => c ++
                [{ level := log.Level.InfoLevel, msg := fmt.Sprint args,
                   data := log.prefixFieldClashes (log.errorText
                     ((ctx.map (fun c => getLogFields ToLower c l.contextFields)).getD [])) }])) ∧
        (∃ w3, logrus.Info ToLower l ctx args w2 = some w3 ∧
          w3.file (logPath config.LogDir "Info")
            = (w2.file (logPath config.LogDir "Info")).map (fun c => c ++
                [{ level := log.Level.InfoLevel, msg := fmt.Sprint args,
                   data := log.prefixFieldClashes (log.errorText
                     ((ctx.map (fun c => getLogFields ToLower c l.contextFields)).getD [])) }])) ∧
        (∃ w3, logrus.Warning ToLower l ctx args w2 = some w3 ∧
          w3.file (logPath config.LogDir "Warn")
            = (w2.file (logPath config.LogDir "Warn")).map (fun c => c ++
                [{ level := log.Level.WarnLevel, msg := fmt.Sprint args,
                   data := log.prefixFieldClashes (log.errorText
                     ((ctx.map (fun c => getLogFields ToLower c l.contextFields)).getD [])) }]))) ∧
      (∃ w3, logrus.Debug ToLower l none args w2 = some w3 ∧
        w3.file (logPath config.LogDir "Debug")
          = (w2.file (logPath config.LogDir "Debug")).map (fun c => c ++
              [{ level := log.Level.InfoLevel, msg := fmt.Sprint args, data := [] }])) ∧
      (∃ w3, logrus.Info ToLower l none args w2 = some w3 ∧
        w3.file (logPath config.LogDir "Info")
          = (w2.file (logPath config.LogDir "Info")).map (fun c => c ++
              [{ level := log.Level.InfoLevel, msg := fmt.Sprint args, data := [] }])) ∧
      (∃ w3, logrus.Warning ToLower l none args w2 = some w3 ∧
        w3.file (logPath config.LogDir "Warn")
          = (w2.file (logPath config.LogDir "Warn")).map (fun c => c ++
              [{ level := log.Level.WarnLevel, msg := fmt.Sprint args, data := [] }])) := by
  intro ToLower ctx args w2
  have hsinks := sinks_of_built config names order w l w1 hperm h
  have hD := hsinks "Debug" log.Level.DebugLevel (by decide)
  have hI := hsinks "Info" log.Level.InfoLevel (by decide)
  have hW := hsinks "Warn" log.Level.WarnLevel (by decide)
  have hE := hsinks "Error" log.Level.ErrorLevel (by decide)
  have general : ∀ (c : Option Context),
      (∀ p ∈ (c.map (fun c => getLogFields ToLower c l.contextFields)).getD [],
          p.2.isFunc = false ∧ p.2.encodable = true) →
      (∃ w3, logrus.Debug ToLower l c args w2 = some w3 ∧
          w3.file (logPath config.LogDir "Debug")
            = (w2.file (logPath config.LogDir "Debug")).map (fun c1 => c1 ++
                [{ level := log.Level.InfoLevel, msg := fmt.Sprint args,
                   data := log.prefixFieldClashes (log.errorText
                     ((c.map (fun c => getLogFields ToLower c l.contextFields)).getD [])) }])) ∧
      (∃ w3, logrus.Info ToLower l c args w2 = some w3 ∧
          w3.file (logPath config.LogDir "Info")
            = (w2.file (logPath config.LogDir "Info")).map (fun c1 => c1 ++
                [{ level := log.Level.InfoLevel, msg := fmt.Sprint args,
                   data := log.prefixFieldClashes (log.errorText
                     ((c.map (fun c => getLogFields ToLower c l.contextFields)).getD [])) }])) ∧
      (∃ w3, logrus.Warning ToLower l c args w2 = some w3 ∧
          w3.file (logPath config.LogDir "Warn")
            = (w2.file (logPath config.LogDir "Warn")).map (fun c1 => c1 ++
                [{ level := log.Level.WarnLevel, msg := fmt.Sprint args,
                   data := log.prefixFieldClashes (log.errorText
                     ((c.map (fun c => getLogFields ToLower c l.contextFields)).getD [])) }])) := by
    intro c hvals
    refine ⟨?_, ?_, ?_⟩
    · refine ⟨_, ?_, (built_sink_write config.Env _ _ _ _).1⟩
      rw [logrus.Debug_eq, hD, Option.map_some']
      exact congrArg some (log.Entry.Log_ok _ _ _ _ _
        (show log.Level.InfoLevel.toNat ≤ log.Level.DebugLevel.toNat by decide)
        (log.JSONFormatter.Format_ok _ _ _ _ hvals))
    · refine ⟨_, ?_, (built_sink_write config.Env _ _ _ _).1⟩
      rw [logrus.Info_eq, hI, Option.map_some']
      exact congrArg some (log.Entry.Log_ok _ _ _ _ _
        (show log.Level.InfoLevel.toNat ≤ log.Level.InfoLevel.toNat by decide)
        (log.JSONFormatter.Format_ok _ _ _ _ hvals))
    · refine ⟨_, ?_, (built_sink_write config.Env _ _ _ _).1⟩
      rw [logrus.Warning_eq, hW, Option.map_some']
      exact congrArg some (log.Entry.Log_ok _ _ _ _ _
        (show log.Level.WarnLevel.toNat ≤ log.Level.WarnLevel.toNat by decide)
        (log.JSONFormatter.Format_ok _ _ _ _ hvals))
  refine ⟨?_, general ctx, ?_⟩
  · rw [logrus.Error_eq, hE, Option.map_some']
    exact congrArg some (log.Entry.Log_dropped _ _ _ _
      (show log.Level.ErrorLevel.toNat < log.Level.WarnLevel.toNat by decide))
  · exact general none (fun p hp => by simp at hp)

/-- The theorem `Error_appends_nothing` at the development run on `/tmp/logs`: after
`Error(nil, "boom")` the file `Error.log` is still empty. -/
theorem Error_appends_nothing_witness :
    logLevels.Perm logLevels ∧
    NewGinLogger devConfig [] logLevels world0 = Except.ok (sampleFacade true [], sampleWorld) ∧
    logrus.Error asciiToLower (sampleFacade true []) none [Value.str "boom"] sampleWorld
      = some sampleWorld ∧
    sampleWorld.file "/tmp/logs/Error.log" = some [] ∧
    sampleWorld.stdout = [] :=
  ⟨List.Perm.refl _, rfl,
    (Error_appends_nothing devConfig [] logLevels world0 (sampleFacade true []) sampleWorld
      (List.Perm.refl _) rfl asciiToLower none [Value.str "boom"] sampleWorld).1,
    rfl, rfl⟩

/-- C5. On every facade `Warning` is one emission at `WarnLevel` on the sink `Warn`, and
`Error` is one emission at `WarnLevel` as well, not at `ErrorLevel`, on the sink `Error`;
neither changes a file outside the output of its own sink, so that on a built facade the
files of the other severities stay as they are. -/
theorem Warning_Error_emit_warn :
    (∀ (ToLower : String → String) (l : logrus) (ctx : Option Context) (args : List Value)
        (w2 : World),
      logrus.Warning ToLower l ctx args w2
        = (l.logger.get? "Warn").map (fun lg =>
            (lg.WithFields
                ((ctx.map (fun c => getLogFields ToLower c l.contextFields)).getD [])).Log
              log.Level.WarnLevel args w2) ∧
      logrus.Error ToLower l ctx args w2
        = (l.logger.get? "Error").map (fun lg =>
            (lg.WithFields
                ((ctx.map (fun c => getLogFields ToLower c l.contextFields)).getD [])).Log
              log.Level.WarnLevel args w2) ∧
      (∀ lg w3, l.logger.get? "Warn" = some lg →
        logrus.Warning ToLower l ctx args w2 = some w3 →
        ∀ q, Writer.file q ∉ lg.Out → w3.file q = w2.file q) ∧
      (∀ lg w3, l.logger.get? "Error" = some lg →
        logrus.Error ToLower l ctx args w2 = some w3 →
        ∀ q, Writer.file q ∉ lg.Out → w3.file q = w2.file q)) ∧
    (∀ (ToLower : String → String) (l : logrus) (lg : log.Logger) (args : List Value)
        (w2 : World),
      l.logger.get? "Error" = some lg →
      log.Level.WarnLevel.toNat ≤ lg.Level.toNat →
      logrus.Error ToLower l none args w2
        = some (writeAll lg.Out
            { level := log.Level.WarnLevel, msg := fmt.Sprint args, data := [] } w2)) ∧
    (∀ (config : LoggerConfig) (names : List ContextField) (order : List (String × log.Level))
        (w : World) (l : logrus) (w1 : World),
      order.Perm logLevels →
      NewGinLogger config names order w = Except.ok (l, w1) →
      ∀ (ToLower : String → String) (ctx : Option Context) (args : List Value) (w2 w3 : World),
        (logrus.Warning ToLower l ctx args w2 = some w3 →
          (∀ q, q ≠ logPath config.LogDir "Warn" → w3.file q = w2.file q) ∧
          ∀ s ∈ ["Debug", "Info", "Error"],
            w3.file (logPath config.LogDir s) = w2.file (logPath config.LogDir s)) ∧
        (logrus.Error ToLower l ctx args w2 = some w3 →
          (∀ q, q ≠ logPath config.LogDir "Error" → w3.file q = w2.file q) ∧
          ∀ s ∈ ["Debug", "Info", "Warn"],
            w3.file (logPath config.LogDir s) = w2.file (logPath config.LogDir s))) := by
  refine ⟨?_, ?_, ?_⟩
  · intro ToLower l ctx args w2
    refine ⟨logrus.Warning_eq _ _ _ _ _, logrus.Error_eq _ _ _ _ _, ?_, ?_⟩
    · intro lg w3 hlg h3 q hq
      rw [logrus.Warning_eq, hlg, Option.map_some', Option.some.injEq] at h3
      rw [← h3]
      exact (log.Entry.Log_frame _ _ _ _).1 q hq
    · intro lg w3 hlg h3 q hq
      rw [logrus.Error_eq, hlg, Option.map_some', Option.some.injEq] at h3
      rw [← h3]
      exact (log.Entry.Log_frame _ _ _ _).1 q hq
  · intro ToLower l lg args w2 hlg hle
    rw [logrus.Error_eq, hlg, Option.map_some']
    have hen : lg.IsLevelEnabled log.Level.WarnLevel = true := by
      simpa [log.Logger.IsLevelEnabled] using hle
    show some ((lg.WithFields []).Log log.Level.WarnLevel args w2) = _
    rw [log.Entry.Log_nil, if_pos hen]
  · intro config names order w l w1 hperm h ToLower ctx args w2 w3
    have hsinks := sinks_of_built config names order w l w1 hperm h
    have hW := hsinks "Warn" log.Level.WarnLevel (by decide)
    have hE := hsinks "Error" log.Level.ErrorLevel (by decide)
    have hout : ∀ (severity q : String), q ≠ logPath config.LogDir severity →
        Writer.file q ∉ (if config.Env = "PROD" ∨ config.Env = "STAGE"
          then [Writer.file (logPath config.LogDir severity)]
          else [Writer.file (logPath config.LogDir severity), Writer.stdout]) := by
      intro severity q hq
      by_cases he : config.Env = "PROD" ∨ config.Env = "STAGE" <;> simp [he, hq]
    constructor
    · intro h3
      rw [logrus.Warning_eq, hW, Option.map_some', Option.some.injEq] at h3
      have hframe : ∀ q, q ≠ logPath config.LogDir "Warn" → w3.file q = w2.file q := by
        intro q hq
        rw [← h3]
        exact (log.Entry.Log_frame _ _ _ _).1 q (hout "Warn" q hq)
      refine ⟨hframe, ?_⟩
      intro s hs
      apply hframe
      apply logPath_ne
      simp only [List.mem_cons, List.mem_singleton, List.not_mem_nil, or_false] at hs
      rcases hs with rfl | rfl | rfl <;> decide
    · intro h3
      rw [logrus.Error_eq, hE, Option.map_some', Option.some.injEq] at h3
      have hframe : ∀ q, q ≠ logPath config.LogDir "Error" → w3.file q = w2.file q := by
        intro q hq
        rw [← h3]
        exact (log.Entry.Log_frame _ _ _ _).1 q (hout "Error" q hq)
      refine ⟨hframe, ?_⟩
      intro s hs
      apply hframe
      apply logPath_ne
      simp only [List.mem_cons, List.mem_singleton, List.not_mem_nil, or_false] at hs
      rcases hs with rfl | rfl | rfl <;> decide

/-- The theorem `Warning_Error_emit_warn` at a facade whose `Error` sink lets every level
through, where `Error(nil, "boom")` writes a record of level `WarnLevel`, and at the
development run on `/tmp/logs`, with the files a `Warning` call leaves behind. -/
theorem Warning_Error_emit_warn_witness :
    (verboseFacade.logger.get? "Error"
        = some { Out := [Writer.stdout], Formatter := log.Formatter.JSONFormatter,
                 Level := log.Level.TraceLevel } ∧
      logrus.Error asciiToLower verboseFacade none [Value.str "boom"] world0
        = some (writeAll [Writer.stdout]
            { level := log.Level.WarnLevel, msg := fmt.Sprint [Value.str "boom"], data := [] }
            world0) ∧
      (logrus.Error asciiToLower verboseFacade none [Value.str "boom"] world0).map
          (fun w3 => w3.stdout)
        = some [{ level := log.Level.WarnLevel, msg := "boom", data := [] }] ∧
      log.Level.WarnLevel.String = "warning") ∧
    (logLevels.Perm logLevels ∧
      NewGinLogger devConfig [] logLevels world0
        = Except.ok (sampleFacade true [], sampleWorld) ∧
      (∀ w3, logrus.Warning asciiToLower (sampleFacade true []) none [Value.str "slow"]
          sampleWorld = some w3 →
        (∀ q, q ≠ logPath devConfig.LogDir "Warn" → w3.file q = sampleWorld.file q) ∧
        ∀ s ∈ ["Debug", "Info", "Error"],
          w3.file (logPath devConfig.LogDir s) = sampleWorld.file (logPath devConfig.LogDir s)) ∧
      (logrus.Warning asciiToLower (sampleFacade true []) none [Value.str "slow"]
          sampleWorld).map
          (fun w3 => (w3.file "/tmp/logs/Warn.log", w3.file "/tmp/logs/Error.log"))
        = some (some [{ level := log.Level.WarnLevel, msg := "slow", data := [] }], some [])) :=
  ⟨⟨rfl,
    Warning_Error_emit_warn.2.1 asciiToLower verboseFacade _ [Value.str "boom"] world0 rfl
      (by decide),
    by decide, rfl⟩,
   ⟨List.Perm.refl _, rfl,
    fun w3 h3 =>
      (Warning_Error_emit_warn.2.2 devConfig [] logLevels world0 (sampleFacade true [])
        sampleWorld (List.Perm.refl _) rfl asciiToLower none [Value.str "slow"] sampleWorld
        w3).1 h3,
    by decide⟩⟩

/-- C6. `Debug` emits its entry at `InfoLevel`, not at `DebugLevel`, on the sink `Debug`, and
`Info` emits at `InfoLevel` on the sink `Info`: after `Debug(nil, "dbg")` on the development
run the file `Debug.log` holds one record whose level reads `info`. -/
theorem Debug_emits_at_info :
    (∀ (ToLower : String → String) (l : logrus) (ctx : Option Context) (args : List Value)
        (w : World),
      logrus.Debug ToLower l ctx args w
        = (l.logger.get? "Debug").map (fun lg =>
            (lg.WithFields
                ((ctx.map (fun c => getLogFields ToLower c l.contextFields)).getD [])).Log
              log.Level.InfoLevel args w) ∧
      logrus.Info ToLower l ctx args w
        = (l.logger.get? "Info").map (fun lg =>
            (lg.WithFields
                ((ctx.map (fun c => getLogFields ToLower c l.contextFields)).getD [])).Log
              log.Level.InfoLevel args w)) ∧
    NewGinLogger devConfig [] logLevels world0 = Except.ok (sampleFacade true [], sampleWorld) ∧
    (logrus.Debug asciiToLower (sampleFacade true []) none [Value.str "dbg"] sampleWorld).bind
        (fun w => w.file "/tmp/logs/Debug.log")
      = some [{ level := log.Level.InfoLevel, msg := "dbg", data := [] }] ∧
    log.Level.InfoLevel.String = "info" ∧
    log.Level.InfoLevel ≠ log.Level.DebugLevel :=
  ⟨fun ToLower l ctx args w =>
      ⟨logrus.Debug_eq ToLower l ctx args w, logrus.Info_eq ToLower l ctx args w⟩,
    rfl, by decide, rfl, by decide⟩

/-- C7. With a nil context each of the four methods writes, when its sink lets the level
through, the one record whose message is `fmt.Sprint(args...)` and whose data fields are
empty, whatever field names the facade was configured with. -/
theorem nil_context_no_fields (ToLower : String → String) (sinks : Map log.Logger)
    (names : List ContextField) (args : List Value) (w : World) :
    logrus.Debug ToLower { logger := sinks, contextFields := names } none args w
      = (sinks.get? "Debug").map (fun lg =>
          if lg.IsLevelEnabled log.Level.InfoLevel then
            writeAll lg.Out { level := log.Level.InfoLevel, msg := fmt.Sprint args, data := [] } w
          else w) ∧
    logrus.Info ToLower { logger := sinks, contextFields := names } none args w
      = (sinks.get? "Info").map (fun lg =>
          if lg.IsLevelEnabled log.Level.InfoLevel then
            writeAll lg.Out { level := log.Level.InfoLevel, msg := fmt.Sprint args, data := [] } w
          else w) ∧
    logrus.Warning ToLower { logger := sinks, contextFields := names } none args w
      = (sinks.get? "Warn").map (fun lg =>
          if lg.IsLevelEnabled log.Level.WarnLevel then
            writeAll lg.Out { level := log.Level.WarnLevel, msg := fmt.Sprint args, data := [] } w
          else w) ∧
    logrus.Error ToLower { logger := sinks, contextFields := names } none args w
      = (sinks.get? "Error").map (fun lg =>
          if lg.IsLevelEnabled log.Level.WarnLevel then
            writeAll lg.Out { level := log.Level.WarnLevel, msg := fmt.Sprint args, data := [] } w
          else w) := by
  refine ⟨?_, ?_, ?_, ?_⟩
  · unfold logrus.Debug
    cases sinks.get? "Debug" with
    | none => rfl
    | some lg => simp [log.Logger.Info, log.Logger.Log_eq, log.Entry.Log_nil]
  · unfold logrus.Info
    cases sinks.get? "Info" with
    | none => rfl
    | some lg => simp [log.Logger.Info, log.Logger.Log_eq, log.Entry.Log_nil]
  · unfold logrus.Warning
    cases sinks.get? "Warn" with
    | none => rfl
    | some lg => simp [log.Logger.Warn, log.Logger.Log_eq, log.Entry.Log_nil]
  · unfold logrus.Error
    cases sinks.get? "Error" with
    | none => rfl
    | some lg => simp [log.Logger.Warn, log.Logger.Log_eq, log.Entry.Log_nil]

/-- C8, as first stated, fails: with the configured name `Level` set to `L` the record that
`Info` appends to `Info.log` holds the field under `fields.level`, not under the key `level`
of `getLogFields`; and with a context value that cannot be encoded nothing is appended to
`Info.log` or to the console. -/
theorem Info_end_to_end_counterexample :
    NewGinLogger devConfig ["Level"] logLevels world0
      = Except.ok (sampleFacade true ["Level"], sampleWorld) ∧
    sampleWorld.file (logPath "/tmp/logs" "Info") = some [] ∧
    getLogFields asciiToLower { Keys := [("Level", Value.str "L")] } ["Level"]
      = [("level", Value.str "L")] ∧
    (logrus.Info asciiToLower (sampleFacade true ["Level"])
        (some { Keys := [("Level", Value.str "L")] }) [Value.str "hi"] sampleWorld).map
        (fun w2 => w2.file (logPath "/tmp/logs" "Info"))
      = some (some [{ level := log.Level.InfoLevel, msg := "hi",
                      data := [("fields.level", Value.str "L")] }]) ∧
    (logrus.Info asciiToLower (sampleFacade true ["Level"])
        (some { Keys := [("Level", Value.str "L")] }) [Value.str "hi"] sampleWorld).map
        (fun w2 => decide (w2.file (logPath "/tmp/logs" "Info")
          = some ([] ++ [{ level := log.Level.InfoLevel, msg := fmt.Sprint [Value.str "hi"],
                           data := getLogFields asciiToLower
                             { Keys := [("Level", Value.str "L")] } ["Level"] }])))
      = some false ∧
    NewGinLogger devConfig ["C"] logLevels world0
      = Except.ok (sampleFacade true ["C"], sampleWorld) ∧
    (logrus.Info asciiToLower (sampleFacade true ["C"])
        (some { Keys := [("C", Value.other "0xc000012345" false)] }) [Value.str "hi"]
        sampleWorld).map
        (fun w2 => (w2.file (logPath "/tmp/logs" "Info"), w2.stdout))
      = some (some [], []) :=
  ⟨rfl, by decide, by decide, by decide, by decide, rfl, by decide⟩

/-- C8, amended. End to end: when `Env` is neither `PROD` nor `STAGE` and the fields of
`getLogFields` hold no function and only values that can be encoded, `Info` with a context
on the freshly built facade appends to `Info.log` exactly one record with level `InfoLevel`,
message `fmt.Sprint(args...)` and the fields of `getLogFields`, with error values as their
text and with the keys `time`, `msg`, `level` and `logrus_error` moved to `fields.time`,
`fields.msg`, `fields.level` and `fields.logrus_error`; it appends the same record to the
console stream, and leaves every other file, those of the other severities among them, as
it was. -/
theorem Info_end_to_end (ToLower : String → String) (Env d : String)
    (names : List ContextField) (order : List (String × log.Level)) (ctx : Context)
    (args : List Value) (w : World) (l : logrus) (w1 : World)
    (hperm : order.Perm logLevels) (hprod : Env ≠ "PROD") (hstage : Env ≠ "STAGE")
    (h : NewGinLogger { Env := Env, LogDir := d } names order w = Except.ok (l, w1))
    (hvals : ∀ p ∈ getLogFields ToLower ctx names,
      p.2.isFunc = false ∧ p.2.encodable = true) :
    ∃ content w2,
      w1.file (logPath d "Info") = some content ∧
      logrus.Info ToLower l (some ctx) args w1 = some w2 ∧
      w2.file (logPath d "Info")
        = some (content ++ [{ level := log.Level.InfoLevel, msg := fmt.Sprint args,
                              data := log.prefixFieldClashes
                                (log.errorText (getLogFields ToLower ctx names)) }]) ∧
      w2.stdout
        = w1.stdout ++ [{ level := log.Level.InfoLevel, msg := fmt.Sprint args,
                          data := log.prefixFieldClashes
                            (log.errorText (getLogFields ToLower ctx names)) }] ∧
      w2.stderr = w1.stderr ∧
      (∀ q, q ≠ logPath d "Info" → w2.file q = w1.file q) ∧
      ∀ s ∈ ["Debug", "Warn", "Error"], w2.file (logPath d s) = w1.file (logPath d s) := by
  obtain ⟨hnames, _, _, _, hsinks, _, hfiles, _⟩ :=
    NewGinLogger_ok { Env := Env, LogDir := d } names order w l w1 hperm h
  have hI := hsinks "Info" log.Level.InfoLevel (by decide)
  obtain ⟨content, hcontent⟩ := Option.isSome_iff_exists.mp (hfiles "Info" (by decide))
  have hc : w1.file (logPath d "Info") = some content := hcontent
  have he : ¬ (Env = "PROD" ∨ Env = "STAGE") := fun hh => hh.elim hprod hstage
  obtain ⟨b1, b2, b3, b4⟩ := built_sink_write Env d "Info"
    { level := log.Level.InfoLevel, msg := fmt.Sprint args,
      data := log.prefixFieldClashes (log.errorText (getLogFields ToLower ctx names)) } w1
  refine ⟨content, _, hc, ?_, ?_, ?_, b4, b2, ?_⟩
  · rw [logrus.Info_eq, hI, Option.map_some', hnames]
    exact congrArg some (log.Entry.Log_ok _ _ _ _ _
      (show log.Level.InfoLevel.toNat ≤ log.Level.InfoLevel.toNat by decide)
      (log.JSONFormatter.Format_ok _ _ _ _ hvals))
  · rw [b1, hc]
    rfl
  · rw [b3, if_neg he]
  · intro s hs
    apply b2
    apply logPath_ne
    simp only [List.mem_cons, List.mem_singleton, List.not_mem_nil, or_false] at hs
    rcases hs with rfl | rfl | rfl <;> decide

/-- The theorem `Info_end_to_end` at the scenario of the specification: `Env` is `DEV`, the
directory `/tmp/logs`, the field `X-Request-Id` set to 42 and the message
`user logged in`. -/
theorem Info_end_to_end_witness :
    logLevels.Perm logLevels ∧ "DEV" ≠ "PROD" ∧ "DEV" ≠ "STAGE" ∧
    NewGinLogger { Env := "DEV", LogDir := "/tmp/logs" } ["X-Request-Id"] logLevels world0
      = Except.ok (sampleFacade true ["X-Request-Id"], sampleWorld) ∧
    (∀ p ∈ getLogFields asciiToLower { Keys := [("X-Request-Id", Value.int 42)] }
        ["X-Request-Id"], p.2.isFunc = false ∧ p.2.encodable = true) ∧
    (∃ content w2,
      sampleWorld.file (logPath "/tmp/logs" "Info") = some content ∧
      logrus.Info asciiToLower (sampleFacade true ["X-Request-Id"])
        (some { Keys := [("X-Request-Id", Value.int 42)] }) [Value.str "user logged in"]
        sampleWorld = some w2 ∧
      w2.file (logPath "/tmp/logs" "Info")
        = some (content ++ [{ level := log.Level.InfoLevel,
                              msg := fmt.Sprint [Value.str "user logged in"],
                              data := log.prefixFieldClashes (log.errorText
                                (getLogFields asciiToLower
                                  { Keys := [("X-Request-Id", Value.int 42)] }
                                  ["X-Request-Id"])) }]) ∧
      w2.stdout
        = sampleWorld.stdout ++ [{ level := log.Level.InfoLevel,
                                   msg := fmt.Sprint [Value.str "user logged in"],
                                   data := log.prefixFieldClashes (log.errorText
                                     (getLogFields asciiToLower
                                       { Keys := [("X-Request-Id", Value.int 42)] }
                                       ["X-Request-Id"])) }] ∧
      w2.stderr = sampleWorld.stderr ∧
      (∀ q, q ≠ logPath "/tmp/logs" "Info" → w2.file q = sampleWorld.file q) ∧
      ∀ s ∈ ["Debug", "Warn", "Error"],
        w2.file (logPath "/tmp/logs" s) = sampleWorld.file (logPath "/tmp/logs" s)) ∧
    (logrus.Info asciiToLower (sampleFacade true ["X-Request-Id"])
        (some { Keys := [("X-Request-Id", Value.int 42)] }) [Value.str "user logged in"]
        sampleWorld).map (fun w2 => (w2.file "/tmp/logs/Info.log", w2.stdout))
      = some
          (some [{ level := log.Level.InfoLevel, msg := "user logged in",
                   data := [("x-request-id", Value.int 42)] }],
           [{ level := log.Level.InfoLevel, msg := "user logged in",
              data := [("x-request-id", Value.int 42)] }]) ∧
    log.Level.InfoLevel.String = "info" :=
  ⟨List.Perm.refl _, by decide, by decide, rfl, by decide,
    Info_end_to_end asciiToLower "DEV" "/tmp/logs" ["X-Request-Id"] logLevels
      { Keys := [("X-Request-Id", Value.int 42)] } [Value.str "user logged in"] world0
      (sampleFacade true ["X-Request-Id"]) sampleWorld (List.Perm.refl _) (by decide)
      (by decide) rfl (by decide),
    by decide, rfl⟩

end GinLogger
